import Mathlib

/-!
Verification development for the classicpod dashboard iPod service
(`ipod_service.py`).  Python strings are embedded as `List Char`; the
filesystem, subprocess launcher, FLAC converter and JSON decoder are
oracles passed as function parameters (they are external to the module
under verification).  Machine behaviour that the module relies on
(`posixpath.normpath`, `str.strip`, `str.isdigit`, ...) is embedded
faithfully from the CPython reference implementations.
-/

/-- Python strings, embedded as lists of characters. -/
abbrev Str := List Char

/-- ASCII whitespace recognised by `str.strip()` (the characters the
service's inputs can actually contain). -/
def pySpace (c : Char) : Bool :=
  c = ' ' || c = '\t' || c = '\n' || c = '\r' || c = '\x0b' || c = '\x0c'

/-- Embedding of Python `str.strip()`. -/
def pyStrip (s : Str) : Str :=
  ((s.dropWhile pySpace).reverse.dropWhile pySpace).reverse

/-- Embedding of Python `str.isdigit()` (ASCII digits). -/
def pyIsdigit (s : Str) : Bool :=
  !s.isEmpty && s.all (·.isDigit)

/-- Split a string at every `'/'`; mirrors Python `path.split('/')`. -/
def splitSlash : Str → List Str
  | [] => [[]]
  | c :: cs =>
    if c = '/' then [] :: splitSlash cs
    else
      match splitSlash cs with
      | [] => [[c]]
      | h :: t => (c :: h) :: t

/-- `'/'.join(parts)`. -/
def joinSlash (parts : List Str) : Str :=
  List.intercalate ['/'] parts

/-- The `initial_slashes` computation of `posixpath.normpath`: `0` when the
path is relative, `2` for a POSIX-special exactly-double-slash prefix,
`1` otherwise. -/
def initialSlashes (s : Str) : Nat :=
  if s.take 1 = ['/'] then
    if s.take 2 = ['/', '/'] && ¬ (s.take 3 = ['/', '/', '/']) then 2 else 1
  else 0

/-- One step of the component scan of `posixpath.normpath`. -/
def normpathStep (initSl : Nat) (acc : List Str) (comp : Str) : List Str :=
  if comp = [] || comp = ['.'] then acc
  else if comp ≠ ['.', '.'] || (initSl = 0 && acc.isEmpty)
      || (!acc.isEmpty && acc.getLast? = some ['.', '.']) then
    acc ++ [comp]
  else if !acc.isEmpty then acc.dropLast
  else acc

/-- Embedding of `posixpath.normpath`. -/
def normpath (s : Str) : Str :=
  if s = [] then ['.']
  else
    let initSl := initialSlashes s
    let comps := (splitSlash s).foldl (normpathStep initSl) []
    let out := List.replicate initSl '/' ++ joinSlash comps
    if out = [] then ['.'] else out

/-- `token.replace("\\", "/")`. -/
def replaceBackslashes (s : Str) : Str :=
  s.map fun c => if c = '\\' then '/' else c

/-- Embedding of `posixpath.join` for two arguments. -/
def pyJoin (a b : Str) : Str :=
  if b.take 1 = ['/'] then b
  else if a = [] || a.getLast? = some '/' then a ++ b
  else a ++ '/' :: b

/-- Embedding of `posixpath.abspath`, with the process working directory
passed explicitly. -/
def pyAbspath (cwd p : Str) : Str :=
  if p.take 1 = ['/'] then normpath p else normpath (pyJoin cwd p)

/-- A value taken from a Python iterable that is supposed to hold strings:
either an actual string or some non-string object (the service filters the
latter out with `isinstance` checks). -/
inductive PyVal where
  | str (s : Str)
  | nonStr
deriving DecidableEq

/-- The `raw_parts` check of `_normalize_rm_targets`: whether the token,
with backslashes turned into slashes, contains a `".."` path segment. -/
def hasDotdotSegment (token : Str) : Bool :=
  ((splitSlash (replaceBackslashes token)).filter (· ≠ [])).any (· = ['.', '.'])

/-- The `"/" + token` coercion of `_normalize_rm_targets`. -/
def coerceLeadingSlash (token : Str) : Str :=
  if token.take 1 = ['/'] then token else '/' :: token

/-- The `normalized` value computed for a non-numeric delete target. -/
def rmNormalized (raw : Str) : Str :=
  normpath (replaceBackslashes (coerceLeadingSlash (pyStrip raw)))

/-- One step of `_normalize_rm_targets`: the loop body acting on the
accumulated output list (the `seen` set and the `cleaned` list always hold
the same elements, so a single list suffices). -/
def rmTargetStep (cleaned : List Str) (v : PyVal) : List Str :=
  match v with
  | .nonStr => cleaned
  | .str raw =>
    if pyStrip raw = [] then cleaned
    else if pyIsdigit (pyStrip raw) then
      if pyStrip raw ∈ cleaned then cleaned else cleaned ++ [pyStrip raw]
    else if hasDotdotSegment (pyStrip raw) then cleaned
    else if rmNormalized raw = ['/'] then cleaned
    else if (rmNormalized raw).take 3 = ['/', '.', '.'] then cleaned
    else if rmNormalized raw ∈ cleaned then cleaned
    else cleaned ++ [rmNormalized raw]

/-- Embedding of `_normalize_rm_targets`. -/
def normalize_rm_targets (targets : List PyVal) : List Str :=
  targets.foldl rmTargetStep []

lemma splitSlash_no_sep {s : Str} (h : ∀ c ∈ s, c ≠ '/') : splitSlash s = [s] := by
  induction s with
  | nil => rfl
  | cons a as ih =>
    have ha : a ≠ '/' := h a (by simp)
    have hih := ih fun c hc => h c (by simp [hc])
    simp [splitSlash, ha, hih]

lemma replaceBackslashes_of_all_digits {s : Str} (h : s.all (·.isDigit) = true) :
    replaceBackslashes s = s := by
  induction s with
  | nil => rfl
  | cons a as ih =>
    rw [List.all_cons, Bool.and_eq_true] at h
    have ha : a ≠ '\\' := by
      intro hcontra
      rw [hcontra] at h
      simp [Char.isDigit] at h
    rw [replaceBackslashes, List.map_cons]
    rw [replaceBackslashes] at ih
    rw [ih h.2, if_neg ha]

lemma hasDotdot_isdigit_false {t : Str} (h : hasDotdotSegment t = true) :
    pyIsdigit t = false := by
  by_contra hc
  rw [Bool.not_eq_false] at hc
  simp only [pyIsdigit, Bool.and_eq_true] at hc
  obtain ⟨hne, hdig⟩ := hc
  have hnosep : ∀ c ∈ t, c ≠ '/' := by
    intro c hcmem hcontra
    have := List.all_eq_true.1 hdig c hcmem
    rw [hcontra] at this
    simp [Char.isDigit] at this
  rw [hasDotdotSegment, replaceBackslashes_of_all_digits hdig, splitSlash_no_sep hnosep] at h
  by_cases ht : t = []
  · subst ht; simp at hne
  · simp [ht] at h
    have := List.all_eq_true.1 hdig '.' (by rw [h]; simp)
    simp [Char.isDigit] at this

lemma take_one_slash_cons {s : Str} (h : s.take 1 = ['/']) : ∃ t, s = '/' :: t := by
  cases s with
  | nil => simp at h
  | cons a t =>
    simp at h
    exact ⟨t, by rw [h]⟩

lemma replaceBackslashes_take_one {s : Str} (h : s.take 1 = ['/']) :
    (replaceBackslashes s).take 1 = ['/'] := by
  obtain ⟨t, rfl⟩ := take_one_slash_cons h
  simp [replaceBackslashes]

lemma coerceLeadingSlash_take_one (token : Str) :
    (coerceLeadingSlash token).take 1 = ['/'] := by
  rw [coerceLeadingSlash]
  split
  · assumption
  · rfl

lemma normpath_take_one {s : Str} (h : s.take 1 = ['/']) :
    (normpath s).take 1 = ['/'] := by
  obtain ⟨t, rfl⟩ := take_one_slash_cons h
  rw [normpath]
  simp only [if_neg (List.cons_ne_nil _ _)]
  have hinit : initialSlashes ('/' :: t) = 2 ∨ initialSlashes ('/' :: t) = 1 := by
    rw [initialSlashes]
    split
    · split
      · exact Or.inl rfl
      · exact Or.inr rfl
    · simp at *
  rcases hinit with h2 | h1
  · rw [h2]; rfl
  · rw [h1]; rfl

lemma rmTargetStep_mem {cleaned : List Str} {x : Str} (v : PyVal) (h : x ∈ cleaned) :
    x ∈ rmTargetStep cleaned v := by
  cases v with
  | nonStr => exact h
  | str raw =>
    rw [rmTargetStep]
    split_ifs <;> first
      | exact h
      | exact List.mem_append_left _ h

lemma rmTargetStep_nodup {cleaned : List Str} (v : PyVal) (h : cleaned.Nodup) :
    (rmTargetStep cleaned v).Nodup := by
  cases v with
  | nonStr => exact h
  | str raw =>
    rw [rmTargetStep]
    split_ifs <;> first
      | exact h
      | (refine List.nodup_append.2 ⟨h, List.nodup_singleton _, fun a ha hb => ?_⟩
         rw [List.mem_singleton.1 hb] at ha
         tauto)

lemma rmTargetStep_excluded {cleaned : List Str} {raw : Str}
    (h : pyStrip raw = [] ∨ hasDotdotSegment (pyStrip raw) = true) :
    rmTargetStep cleaned (.str raw) = cleaned := by
  rw [rmTargetStep]
  rcases h with h | h
  · simp [h]
  · have hd := hasDotdot_isdigit_false h
    have hne : pyStrip raw ≠ [] := by
      intro hc
      rw [hc] at h
      simp [hasDotdotSegment, replaceBackslashes, splitSlash] at h
    simp [hne, hd, h]

lemma rmTargetStep_digit {cleaned : List Str} {raw : Str}
    (h : pyIsdigit (pyStrip raw) = true) :
    pyStrip raw ∈ rmTargetStep cleaned (.str raw) := by
  rw [rmTargetStep]
  have hne : pyStrip raw ≠ [] := by
    intro hc
    rw [hc] at h
    simp [pyIsdigit] at h
  simp only [if_neg hne, if_pos h]
  split_ifs with hmem
  · exact hmem
  · exact List.mem_append_right _ (by simp)

lemma rmTargetStep_shape {cleaned : List Str} {x : Str} (v : PyVal)
    (h : x ∈ rmTargetStep cleaned v) :
    x ∈ cleaned ∨ pyIsdigit x = true ∨ x.take 1 = ['/'] := by
  cases v with
  | nonStr => exact Or.inl h
  | str raw =>
    rw [rmTargetStep] at h
    split_ifs at h with h1 h2 h3 h4 h5 h6 h7
    all_goals try exact Or.inl h
    · rcases List.mem_append.1 h with h' | h'
      · exact Or.inl h'
      · refine Or.inr (Or.inl ?_)
        rw [List.mem_singleton.1 h']
        exact h2
    · rcases List.mem_append.1 h with h' | h'
      · exact Or.inl h'
      · refine Or.inr (Or.inr ?_)
        rw [List.mem_singleton.1 h']
        exact normpath_take_one (replaceBackslashes_take_one (coerceLeadingSlash_take_one _))

lemma rm_fold_mem {acc : List Str} {x : Str} (l : List PyVal) (h : x ∈ acc) :
    x ∈ l.foldl rmTargetStep acc := by
  induction l generalizing acc with
  | nil => exact h
  | cons v vs ih => exact ih (rmTargetStep_mem v h)

lemma rm_fold_nodup {acc : List Str} (l : List PyVal) (h : acc.Nodup) :
    (l.foldl rmTargetStep acc).Nodup := by
  induction l generalizing acc with
  | nil => exact h
  | cons v vs ih => exact ih (rmTargetStep_nodup v h)

lemma rm_fold_shape {acc : List Str} {x : Str} (l : List PyVal)
    (h : x ∈ l.foldl rmTargetStep acc) :
    x ∈ acc ∨ pyIsdigit x = true ∨ x.take 1 = ['/'] := by
  induction l generalizing acc with
  | nil => exact Or.inl h
  | cons v vs ih =>
    rcases ih h with h' | h'
    · exact rmTargetStep_shape v h'
    · exact Or.inr h'

lemma rm_fold_digit {acc : List Str} {raw : Str} (l : List PyVal)
    (hmem : PyVal.str raw ∈ l) (h : pyIsdigit (pyStrip raw) = true) :
    pyStrip raw ∈ l.foldl rmTargetStep acc := by
  induction l generalizing acc with
  | nil => simp at hmem
  | cons v vs ih =>
    rcases List.mem_cons.1 hmem with h' | h'
    · rw [← h']
      exact rm_fold_mem vs (rmTargetStep_digit h)
    · exact ih h'

/-- C2 (counterexample): the claim that non-numeric delete targets are
coerced to exactly one leading `/` fails: the input `"//a"` survives
normalization with its POSIX-special double-slash prefix intact, because
`posixpath.normpath` preserves an exactly-double leading slash. -/
theorem C2_counterexample :
    normalize_rm_targets [PyVal.str "//a".toList] = ["//a".toList] ∧
    ("//a".toList).take 2 = ['/', '/'] := by
  constructor
  · decide
  · decide

/-- C2 (amended): delete-target normalization excludes tokens containing a
`".."` path segment and empty/whitespace-only tokens; purely numeric
tokens pass through unmodified (after whitespace stripping); every
non-numeric output target begins with `/` (a POSIX-special `//` prefix of
the input is preserved rather than collapsed to one slash); the output has
no duplicates; and the spec's end-to-end example yields exactly
`["/a/A.mp3"]`. -/
theorem C2_normalize_rm_targets :
    (∀ xs ys raw, (pyStrip raw = [] ∨ hasDotdotSegment (pyStrip raw) = true) →
        normalize_rm_targets (xs ++ PyVal.str raw :: ys) = normalize_rm_targets (xs ++ ys)) ∧
    (∀ l raw, PyVal.str raw ∈ l → pyIsdigit (pyStrip raw) = true →
        pyStrip raw ∈ normalize_rm_targets l) ∧
    (∀ l x, x ∈ normalize_rm_targets l → pyIsdigit x = true ∨ x.take 1 = ['/']) ∧
    (∀ l, (normalize_rm_targets l).Nodup) ∧
    normalize_rm_targets [PyVal.str "/a/A.mp3".toList, PyVal.str "a/A.mp3".toList,
        PyVal.str "  ".toList, PyVal.str "/../etc/passwd".toList] = ["/a/A.mp3".toList] := by
  refine ⟨?_, ?_, ?_, ?_, by decide⟩
  · intro xs ys raw h
    unfold normalize_rm_targets
    rw [List.foldl_append, List.foldl_append, List.foldl_cons, rmTargetStep_excluded h]
  · intro l raw hmem h
    exact rm_fold_digit l hmem h
  · intro l x hx
    rcases rm_fold_shape l hx with h | h
    · simp at h
    · exact h
  · intro l
    exact rm_fold_nodup l List.nodup_nil

/-- C2 (witness): the amended theorem applied concretely — a `".."`-bearing
token contributes nothing to the normalized delete-target list. -/
theorem C2_normalize_rm_targets_witness :
    normalize_rm_targets
        ([PyVal.str "/x".toList] ++ PyVal.str "/../y".toList :: [PyVal.str "12".toList]) =
      normalize_rm_targets ([PyVal.str "/x".toList] ++ [PyVal.str "12".toList]) :=
  C2_normalize_rm_targets.1 _ _ _ (Or.inr (by decide))

/-- Python `str.strip()` on the `String` payloads used for process output. -/
def pyStripS (s : String) : String :=
  String.mk (pyStrip s.toList)

/-- One step of `_normalize_local_paths`: the loop body acting on the
accumulated output list (again `seen` and `cleaned` coincide).  The
filesystem is the oracle `isfile`; `cwd` is the working directory used by
`os.path.abspath`. -/
def localPathStep (isfile : Str → Bool) (cwd : Str) (cleaned : List Str) (v : PyVal) :
    List Str :=
  match v with
  | .nonStr => cleaned
  | .str raw =>
    if pyAbspath cwd (pyStrip raw) = [] then cleaned
    else if ¬ isfile (pyAbspath cwd (pyStrip raw)) then cleaned
    else if pyAbspath cwd (pyStrip raw) ∈ cleaned then cleaned
    else cleaned ++ [pyAbspath cwd (pyStrip raw)]

/-- Embedding of `_normalize_local_paths`. -/
def normalize_local_paths (isfile : Str → Bool) (cwd : Str) (filePaths : List PyVal) :
    List Str :=
  filePaths.foldl (localPathStep isfile cwd) []

/-- The absolute path a (string) input would normalize to; `none` for
non-string entries. -/
def localPathCandidate (cwd : Str) : PyVal → Option Str
  | .nonStr => none
  | .str raw => some (pyAbspath cwd (pyStrip raw))

lemma local_fold_spec (isfile : Str → Bool) (cwd : Str) (l : List PyVal)
    (acc : List Str) (hnd : acc.Nodup) (hfile : ∀ x ∈ acc, isfile x = true) :
    ∃ δ, l.foldl (localPathStep isfile cwd) acc = acc ++ δ ∧
      δ.Sublist (l.filterMap (localPathCandidate cwd)) ∧
      (acc ++ δ).Nodup ∧ ∀ x ∈ δ, isfile x = true := by
  induction l generalizing acc with
  | nil =>
    refine ⟨[], by simp, List.nil_sublist _, by simpa, by simp⟩
  | cons v vs ih =>
    cases v with
    | nonStr =>
      obtain ⟨δ, h1, h2, h3, h4⟩ := ih acc hnd hfile
      exact ⟨δ, h1, by simpa [localPathCandidate] using h2, h3, h4⟩
    | str raw =>
      rw [List.foldl_cons]
      have hcand : (PyVal.str raw :: vs).filterMap (localPathCandidate cwd)
          = pyAbspath cwd (pyStrip raw) :: vs.filterMap (localPathCandidate cwd) := by
        simp [localPathCandidate]
      by_cases hkeep : pyAbspath cwd (pyStrip raw) ≠ [] ∧
          isfile (pyAbspath cwd (pyStrip raw)) = true ∧
          pyAbspath cwd (pyStrip raw) ∉ acc
      · have hstep : localPathStep isfile cwd acc (.str raw)
            = acc ++ [pyAbspath cwd (pyStrip raw)] := by
          rw [localPathStep]
          simp [hkeep.1, hkeep.2.1, hkeep.2.2]
        rw [hstep]
        have hnd' : (acc ++ [pyAbspath cwd (pyStrip raw)]).Nodup := by
          refine List.nodup_append.2 ⟨hnd, List.nodup_singleton _, fun a ha hb => ?_⟩
          rw [List.mem_singleton.1 hb] at ha
          exact hkeep.2.2 ha
        have hfile' : ∀ x ∈ acc ++ [pyAbspath cwd (pyStrip raw)], isfile x = true := by
          intro x hx
          rcases List.mem_append.1 hx with hx | hx
          · exact hfile x hx
          · rw [List.mem_singleton.1 hx]
            exact hkeep.2.1
        obtain ⟨δ, h1, h2, h3, h4⟩ := ih (acc ++ [pyAbspath cwd (pyStrip raw)]) hnd' hfile'
        refine ⟨pyAbspath cwd (pyStrip raw) :: δ, by rw [h1]; simp, ?_, by simpa using h3, ?_⟩
        · rw [hcand]
          exact List.Sublist.cons₂ _ h2
        · intro x hx
          rcases List.mem_cons.1 hx with hx | hx
          · rw [hx]; exact hkeep.2.1
          · exact h4 x hx
      · have hstep : localPathStep isfile cwd acc (.str raw) = acc := by
          rw [localPathStep]
          push_neg at hkeep
          by_cases he : pyAbspath cwd (pyStrip raw) = []
          · simp [he]
          · by_cases hf : isfile (pyAbspath cwd (pyStrip raw)) = true
            · have hmem := hkeep he hf
              simp [he, hf, hmem]
            · simp [he, hf]
        rw [hstep]
        obtain ⟨δ, h1, h2, h3, h4⟩ := ih acc hnd hfile
        refine ⟨δ, h1, ?_, h3, h4⟩
        rw [hcand]
        exact List.Sublist.cons _ h2

/-- A completed `subprocess.run` invocation (any exit code). -/
structure Completed where
  returncode : Int
  stdout : String
  stderr : String
deriving DecidableEq

/-- Exceptions a subprocess launch can raise in the service's handlers:
`FileNotFoundError`, `subprocess.TimeoutExpired`, `OSError` with
`errno == E2BIG`, and any other `OSError`. -/
inductive RunRaise where
  | fileNotFound
  | timeout
  | argListTooLong
  | osError (msg : String)
deriving DecidableEq

/-- The subprocess launcher, as an oracle from the full argument vector to
what `subprocess.run` does for it. -/
abbrev RunOracle := List Str → Except RunRaise Completed

/-- `result.stderr.strip() or result.stdout.strip() or default`. -/
def messageOf (r : Completed) (fallbackMsg : String) : String :=
  if pyStripS r.stderr ≠ "" then pyStripS r.stderr
  else if pyStripS r.stdout ≠ "" then pyStripS r.stdout
  else fallbackMsg

/-- `all_stdout.append(result.stdout.strip())` guarded by truthiness. -/
def collectStream (s : String) : List String :=
  if s ≠ "" then [pyStripS s] else []

/-- `"\n".join([line for line in lines if line])`. -/
def joinStreams (l : List String) : String :=
  String.intercalate "\n" (l.filter (· ≠ ""))

/-- `src.lower().endswith(".flac")`. -/
def isFlacName (s : Str) : Bool :=
  ".flac".toList.isSuffixOf (s.map Char.toLower)

/-- Embedding of `posixpath.basename`. -/
def pyBasename (s : Str) : Str :=
  (s.reverse.takeWhile (· ≠ '/')).reverse

/-- Split a string at its last `'.'` when one exists. -/
def splitAtLastDot : Str → Option (Str × Str)
  | [] => none
  | c :: cs =>
    match splitAtLastDot cs with
    | some (st, ext) => some (c :: st, ext)
    | none => if c = '.' then some ([], cs) else none

/-- The stem component of `posixpath.splitext` (for a basename): the part
before the last dot, unless every character before that dot is itself a
dot (leading-dot filenames keep their dots). -/
def splitextStem (s : Str) : Str :=
  match splitAtLastDot s with
  | some (st, _) => if st.any (· ≠ '.') then st else s
  | none => s

/-- The scratch destination `os.path.join(temp_dir, f"{base_name}_{index}.m4a")`. -/
def convDst (tempDir : Str) (src : Str) (index : Nat) : Str :=
  pyJoin tempDir
    (splitextStem (pyBasename src) ++ '_' :: Nat.toDigits 10 index ++ ".m4a".toList)

/-- State threaded through phase 1 of `add_tracks`: the `converted_map`
association, the `converted_count`, and the `conversion_failures`
(source display name paired with the conversion error message). -/
structure Phase1State where
  convertedMap : List (Str × Str)
  convertedCount : Nat
  failures : List (Str × String)
deriving DecidableEq

/-- One iteration of phase 1 over an `enumerate`d source: skip non-FLAC
names; on conversion success record the mapping and bump the counter; on
conversion failure (the `conv` oracle yields an error message, standing
for the `GpodError` raised by `_convert_flac_to_alac`) record the failure
and keep going. -/
def phase1Step (conv : Nat → Str → Option String) (tempDir : Str)
    (st : Phase1State) (p : Nat × Str) : Phase1State :=
  if ¬ isFlacName p.2 then st
  else
    match conv p.1 p.2 with
    | none =>
      { st with convertedMap := st.convertedMap ++ [(p.2, convDst tempDir p.2 p.1)],
                convertedCount := st.convertedCount + 1 }
    | some msg => { st with failures := st.failures ++ [(pyBasename p.2, msg)] }

/-- Phase 1 of `add_tracks`: convert every FLAC source first (when
conversion is enabled), never aborting on an individual failure. -/
def phase1 (conv : Nat → Str → Option String) (tempDir : Str)
    (convertToAlac : Bool) (sources : List Str) : Phase1State :=
  if convertToAlac then sources.enum.foldl (phase1Step conv tempDir) ⟨[], 0, []⟩
  else ⟨[], 0, []⟩

/-- `converted_map.get(src, src)` lookup. -/
def lookupConv : List (Str × Str) → Str → Option Str
  | [], _ => none
  | q :: rest, src => if src = q.1 then some q.2 else lookupConv rest src

/-- Phase 2's prepared file list: converted path when phase 1 succeeded for
that source, else the original source path. -/
def preparedFiles (conv : Nat → Str → Option String) (tempDir : Str)
    (convertToAlac : Bool) (sources : List Str) : List Str :=
  sources.map fun src =>
    (lookupConv (phase1 conv tempDir convertToAlac sources).convertedMap src).getD src

/-- The `gpod-cp` argument vector. -/
def cpArgv (mountpoint : Str) (prepared : List Str) : List Str :=
  "gpod-cp".toList :: "-M".toList :: mountpoint :: prepared

/-- Errors `add_tracks` can raise (`GpodError` variants, keyed by the
message family). -/
inductive AddError where
  | emptyMountpoint
  | mountpointMissing
  | noValidFiles
  | cpNotInstalled
  | cpTimeout
  | tooManyFiles
  | cpOsFailed (msg : String)
  | cpFailed (msg : String)
deriving DecidableEq

/-- The success payload of `add_tracks`. -/
structure AddResult where
  requestedCount : Nat
  convertedCount : Nat
  conversionFailedCount : Nat
  conversionFailures : List (Str × String)
  stdout : String
  stderr : String
deriving DecidableEq

/-- Embedding of `add_tracks`.  Alongside the result it returns the list of
`gpod-cp` argument vectors actually launched, so that claims about how
many copy invocations happen are statable. -/
def add_tracks (pathExists isfile : Str → Bool) (cwd : Str)
    (conv : Nat → Str → Option String) (run : RunOracle) (tempDir : Str)
    (mountpoint : Str) (filePaths : List PyVal) (convertToAlac : Bool) :
    Except AddError AddResult × List (List Str) :=
  if mountpoint = [] then (.error .emptyMountpoint, [])
  else if ¬ pathExists mountpoint then (.error .mountpointMissing, [])
  else if normalize_local_paths isfile cwd filePaths = [] then (.error .noValidFiles, [])
  else
    match run (cpArgv mountpoint (preparedFiles conv tempDir convertToAlac
        (normalize_local_paths isfile cwd filePaths))) with
    | .error .fileNotFound =>
      (.error .cpNotInstalled, [cpArgv mountpoint (preparedFiles conv tempDir convertToAlac
        (normalize_local_paths isfile cwd filePaths))])
    | .error .timeout =>
      (.error .cpTimeout, [cpArgv mountpoint (preparedFiles conv tempDir convertToAlac
        (normalize_local_paths isfile cwd filePaths))])
    | .error .argListTooLong =>
      (.error .tooManyFiles, [cpArgv mountpoint (preparedFiles conv tempDir convertToAlac
        (normalize_local_paths isfile cwd filePaths))])
    | .error (.osError m) =>
      (.error (.cpOsFailed m), [cpArgv mountpoint (preparedFiles conv tempDir convertToAlac
        (normalize_local_paths isfile cwd filePaths))])
    | .ok r =>
      (if r.returncode ≠ 0 then .error (.cpFailed (messageOf r "Unknown gpod-cp error."))
       else .ok { requestedCount := (normalize_local_paths isfile cwd filePaths).length,
                  convertedCount := (phase1 conv tempDir convertToAlac
                    (normalize_local_paths isfile cwd filePaths)).convertedCount,
                  conversionFailedCount := (phase1 conv tempDir convertToAlac
                    (normalize_local_paths isfile cwd filePaths)).failures.length,
                  conversionFailures := (phase1 conv tempDir convertToAlac
                    (normalize_local_paths isfile cwd filePaths)).failures,
                  stdout := joinStreams (collectStream r.stdout),
                  stderr := joinStreams (collectStream r.stderr) },
       [cpArgv mountpoint (preparedFiles conv tempDir convertToAlac
         (normalize_local_paths isfile cwd filePaths))])

lemma localPathStep_drop {isfile : Str → Bool} {cwd : Str} {cleaned : List Str} {raw : Str}
    (h : isfile (pyAbspath cwd (pyStrip raw)) = false ∨ pyAbspath cwd (pyStrip raw) ∈ cleaned) :
    localPathStep isfile cwd cleaned (.str raw) = cleaned := by
  rw [localPathStep]
  rcases h with h | h
  · by_cases he : pyAbspath cwd (pyStrip raw) = [] <;> simp [he, h]
  · by_cases he : pyAbspath cwd (pyStrip raw) = []
    · simp [he]
    · by_cases hf : isfile (pyAbspath cwd (pyStrip raw)) = true <;> simp [he, hf, h]

/-- C10: local-path normalization for add-operations silently drops
non-string entries, entries whose absolute path is not an existing regular
file, and duplicates of an already-seen absolute path; the output is
duplicate-free, lists only existing files, and preserves first-occurrence
input order (it is a sublist of the per-input absolute paths); the
operation's `requested_count` equals the length of the filtered list; and
a batch whose filtered list is empty fails with the no-valid-files error
before any `gpod-cp` invocation. -/
theorem C10_normalize_local_paths :
    ∀ (isfile : Str → Bool) (cwd : Str),
    (∀ xs ys, normalize_local_paths isfile cwd (xs ++ PyVal.nonStr :: ys)
        = normalize_local_paths isfile cwd (xs ++ ys)) ∧
    (∀ xs raw ys, isfile (pyAbspath cwd (pyStrip raw)) = false →
        normalize_local_paths isfile cwd (xs ++ PyVal.str raw :: ys)
          = normalize_local_paths isfile cwd (xs ++ ys)) ∧
    (∀ xs raw ys, pyAbspath cwd (pyStrip raw) ∈ normalize_local_paths isfile cwd xs →
        normalize_local_paths isfile cwd (xs ++ PyVal.str raw :: ys)
          = normalize_local_paths isfile cwd (xs ++ ys)) ∧
    (∀ l, (normalize_local_paths isfile cwd l).Nodup ∧
        (normalize_local_paths isfile cwd l).Sublist (l.filterMap (localPathCandidate cwd)) ∧
        ∀ x ∈ normalize_local_paths isfile cwd l, isfile x = true) ∧
    (∀ pathExists conv run tempDir mountpoint filePaths convertToAlac r,
        mountpoint ≠ [] → pathExists mountpoint = true →
        normalize_local_paths isfile cwd filePaths ≠ [] →
        run (cpArgv mountpoint (preparedFiles conv tempDir convertToAlac
          (normalize_local_paths isfile cwd filePaths))) = .ok r → r.returncode = 0 →
        ∃ res,
          (add_tracks pathExists isfile cwd conv run tempDir mountpoint
              filePaths convertToAlac).1 = .ok res ∧
          res.requestedCount = (normalize_local_paths isfile cwd filePaths).length) ∧
    (∀ pathExists conv run tempDir mountpoint filePaths convertToAlac,
        mountpoint ≠ [] → pathExists mountpoint = true →
        normalize_local_paths isfile cwd filePaths = [] →
        add_tracks pathExists isfile cwd conv run tempDir mountpoint filePaths convertToAlac
          = (.error .noValidFiles, [])) := by
  intro isfile cwd
  refine ⟨?_, ?_, ?_, ?_, ?_, ?_⟩
  · intro xs ys
    unfold normalize_local_paths
    rw [List.foldl_append, List.foldl_append, List.foldl_cons]
    rfl
  · intro xs raw ys h
    unfold normalize_local_paths
    rw [List.foldl_append, List.foldl_append, List.foldl_cons, localPathStep_drop (Or.inl h)]
  · intro xs raw ys h
    unfold normalize_local_paths at h ⊢
    rw [List.foldl_append, List.foldl_append, List.foldl_cons, localPathStep_drop (Or.inr h)]
  · intro l
    obtain ⟨δ, h1, h2, h3, h4⟩ :=
      local_fold_spec isfile cwd l [] List.nodup_nil (by simp)
    rw [normalize_local_paths, h1]
    simpa using ⟨h3, h2, h4⟩
  · intro pathExists conv run tempDir mountpoint filePaths convertToAlac r hmp hex hne hrun hrc
    refine ⟨⟨(normalize_local_paths isfile cwd filePaths).length,
        (phase1 conv tempDir convertToAlac (normalize_local_paths isfile cwd filePaths)).convertedCount,
        (phase1 conv tempDir convertToAlac (normalize_local_paths isfile cwd filePaths)).failures.length,
        (phase1 conv tempDir convertToAlac (normalize_local_paths isfile cwd filePaths)).failures,
        joinStreams (collectStream r.stdout), joinStreams (collectStream r.stderr)⟩, ?_, rfl⟩
    rw [add_tracks, if_neg hmp, if_neg (by simp [hex]), if_neg hne, hrun]
    simp [hrc]
  · intro pathExists conv run tempDir mountpoint filePaths convertToAlac hmp hex hempty
    rw [add_tracks, if_neg hmp, if_neg (by simp [hex]), if_pos hempty]

/-- C10 (witness): the theorem applied concretely — with a filesystem on
which nothing is a file, a second string input is dropped just like a
first. -/
theorem C10_normalize_local_paths_witness :
    normalize_local_paths (fun _ => false) "/".toList
        ([PyVal.str "/a".toList] ++ PyVal.str "/b".toList :: []) =
      normalize_local_paths (fun _ => false) "/".toList ([PyVal.str "/a".toList] ++ []) :=
  (C10_normalize_local_paths _ _).2.1 _ _ _ rfl

/-- C1 (amended): when the single `gpod-cp` invocation of an add-operation
raises the OS argument-list-too-long error (`E2BIG`), `add_tracks`
performs no per-target fallback: exactly one copy invocation is issued and
the too-many-files error is surfaced to the caller directly (the per-item
fallback exists only in the delete path). -/
theorem C1_add_no_fallback (pathExists isfile : Str → Bool) (cwd : Str)
    (conv : Nat → Str → Option String) (run : RunOracle) (tempDir mountpoint : Str)
    (filePaths : List PyVal) (convertToAlac : Bool)
    (hmp : mountpoint ≠ []) (hex : pathExists mountpoint = true)
    (hne : normalize_local_paths isfile cwd filePaths ≠ [])
    (hrun : run (cpArgv mountpoint (preparedFiles conv tempDir convertToAlac
        (normalize_local_paths isfile cwd filePaths))) = .error .argListTooLong) :
    add_tracks pathExists isfile cwd conv run tempDir mountpoint filePaths convertToAlac
      = (.error .tooManyFiles,
         [cpArgv mountpoint (preparedFiles conv tempDir convertToAlac
            (normalize_local_paths isfile cwd filePaths))]) := by
  rw [add_tracks, if_neg hmp, if_neg (by simp [hex]), if_neg hne, hrun]

/-- C1 (witness): the amended theorem applied concretely — a two-file batch
whose batched invocation raises `E2BIG` yields the too-many-files error
with exactly one launched invocation. -/
theorem C1_add_no_fallback_witness :
    add_tracks (fun _ => true)
        (fun s => s == "/f/a.mp3".toList || s == "/f/b.mp3".toList) "/".toList
        (fun _ _ => none)
        (fun args => if 5 ≤ args.length then .error .argListTooLong else .ok ⟨0, "ok", ""⟩)
        "/tmp".toList "/mnt2".toList
        [PyVal.str "/f/a.mp3".toList, PyVal.str "/f/b.mp3".toList] false
      = (.error .tooManyFiles,
         [cpArgv "/mnt2".toList ["/f/a.mp3".toList, "/f/b.mp3".toList]]) :=
  C1_add_no_fallback _ _ _ _ _ _ _ _ _ (by decide) rfl (by decide) rfl

/-- C1 (counterexample): a two-file add batch whose single `gpod-cp`
invocation raises `E2BIG` while every per-target invocation would succeed:
the code issues no per-target invocation (exactly one launch happens) and
the too-many-arguments error reaches the caller anyway, contradicting the
claimed fallback. -/
theorem C1_counterexample :
    add_tracks (fun _ => true)
        (fun s => s == "/f/a.mp3".toList || s == "/f/b.mp3".toList) "/".toList
        (fun _ _ => none)
        (fun args => if 5 ≤ args.length then .error .argListTooLong else .ok ⟨0, "ok", ""⟩)
        "/tmp".toList "/mnt/ipod".toList
        [PyVal.str "/f/a.mp3".toList, PyVal.str "/f/b.mp3".toList] false
      = (.error .tooManyFiles,
         [cpArgv "/mnt/ipod".toList ["/f/a.mp3".toList, "/f/b.mp3".toList]]) ∧
    (fun (args : List Str) =>
        if 5 ≤ args.length then (.error .argListTooLong : Except RunRaise Completed)
        else .ok ⟨0, "ok", ""⟩)
      (cpArgv "/mnt/ipod".toList ["/f/a.mp3".toList]) = .ok ⟨0, "ok", ""⟩ := by
  exact ⟨rfl, rfl⟩

/-- An enumerated source that converts successfully in phase 1. -/
def convOkAt (conv : Nat → Str → Option String) (p : Nat × Str) : Bool :=
  isFlacName p.2 && (conv p.1 p.2).isNone

/-- An enumerated source whose conversion fails in phase 1. -/
def convFailAt (conv : Nat → Str → Option String) (p : Nat × Str) : Bool :=
  isFlacName p.2 && (conv p.1 p.2).isSome

lemma phase1Step_count (conv : Nat → Str → Option String) (tempDir : Str)
    (st : Phase1State) (p : Nat × Str) :
    (phase1Step conv tempDir st p).convertedCount
      = st.convertedCount + (if convOkAt conv p then 1 else 0) := by
  rw [phase1Step, convOkAt]
  by_cases hf : isFlacName p.2
  · cases hc : conv p.1 p.2 <;> simp [hf, hc]
  · simp [hf]

lemma phase1Step_failures_len (conv : Nat → Str → Option String) (tempDir : Str)
    (st : Phase1State) (p : Nat × Str) :
    (phase1Step conv tempDir st p).failures.length
      = st.failures.length + (if convFailAt conv p then 1 else 0) := by
  rw [phase1Step, convFailAt]
  by_cases hf : isFlacName p.2
  · cases hc : conv p.1 p.2 <;> simp [hf, hc]
  · simp [hf]

lemma phase1Step_map_keys (conv : Nat → Str → Option String) (tempDir : Str)
    (st : Phase1State) (p : Nat × Str) :
    (phase1Step conv tempDir st p).convertedMap = st.convertedMap ∨
    (phase1Step conv tempDir st p).convertedMap
      = st.convertedMap ++ [(p.2, convDst tempDir p.2 p.1)] := by
  rw [phase1Step]
  by_cases hf : isFlacName p.2
  · cases hc : conv p.1 p.2
    · right; simp [hf, hc]
    · left; simp [hf, hc]
  · left; simp [hf]

lemma lookupConv_append (m : List (Str × Str)) (k : Str) (v : Str) (src : Str) :
    lookupConv (m ++ [(k, v)]) src
      = match lookupConv m src with
        | some w => some w
        | none => if src = k then some v else none := by
  induction m with
  | nil => rfl
  | cons q qs ih =>
    rw [List.cons_append, lookupConv, lookupConv, ih]
    by_cases hq : src = q.1
    · simp [hq]
    · simp [hq]

lemma phase1_fold_count (conv : Nat → Str → Option String) (tempDir : Str)
    (E : List (Nat × Str)) (st : Phase1State) :
    (E.foldl (phase1Step conv tempDir) st).convertedCount
      = st.convertedCount + E.countP (convOkAt conv) := by
  induction E generalizing st with
  | nil => simp
  | cons p ps ih =>
    rw [List.foldl_cons, ih, phase1Step_count, List.countP_cons]
    by_cases h : convOkAt conv p <;> simp [h] <;> omega

lemma phase1_fold_failures (conv : Nat → Str → Option String) (tempDir : Str)
    (E : List (Nat × Str)) (st : Phase1State) :
    (E.foldl (phase1Step conv tempDir) st).failures.length
      = st.failures.length + E.countP (convFailAt conv) := by
  induction E generalizing st with
  | nil => simp
  | cons p ps ih =>
    rw [List.foldl_cons, ih, phase1Step_failures_len, List.countP_cons]
    by_cases h : convFailAt conv p <;> simp [h] <;> omega

lemma phase1_fold_lookup_untouched (conv : Nat → Str → Option String) (tempDir : Str)
    (E : List (Nat × Str)) (st : Phase1State) (src : Str)
    (h : ∀ p ∈ E, p.2 ≠ src) :
    lookupConv (E.foldl (phase1Step conv tempDir) st).convertedMap src
      = lookupConv st.convertedMap src := by
  induction E generalizing st with
  | nil => rfl
  | cons p ps ih =>
    rw [List.foldl_cons, ih _ fun q hq => h q (by simp [hq])]
    rcases phase1Step_map_keys conv tempDir st p with hm | hm
    · rw [hm]
    · rw [hm, lookupConv_append]
      have hne : ¬ src = p.2 := fun hh => h p (by simp) hh.symm
      cases lookupConv st.convertedMap src <;> simp [hne]

lemma phase1_fold_lookup (conv : Nat → Str → Option String) (tempDir : Str)
    (E : List (Nat × Str)) (st : Phase1State)
    (hkeys : (E.map Prod.snd).Nodup)
    (hdisj : ∀ p ∈ E, lookupConv st.convertedMap p.2 = none) :
    ∀ p ∈ E,
      lookupConv (E.foldl (phase1Step conv tempDir) st).convertedMap p.2
        = if convOkAt conv p then some (convDst tempDir p.2 p.1) else none := by
  induction E generalizing st with
  | nil => intro p h; simp at h
  | cons q qs ih =>
    intro p hmem
    rw [List.map_cons, List.nodup_cons] at hkeys
    rw [List.foldl_cons]
    rcases List.mem_cons.1 hmem with heq | hmem'
    · subst heq
      have hnot : ∀ w ∈ qs, w.2 ≠ p.2 := by
        intro w hw hcontra
        exact hkeys.1 (hcontra ▸ List.mem_map_of_mem _ hw)
      rw [phase1_fold_lookup_untouched conv tempDir qs _ p.2 hnot]
      have hd := hdisj p (by simp)
      rw [phase1Step, convOkAt]
      by_cases hf : isFlacName p.2
      · cases hc : conv p.1 p.2
        · simp only [hf, hc, if_neg, ite_true, Option.isNone_none, Bool.and_true]
          simp [lookupConv_append, hd]
        · simp [hf, hc, hd]
      · simp [hf, hd]
    · refine ih _ hkeys.2 ?_ p hmem'
      intro w hw
      rcases phase1Step_map_keys conv tempDir st q with hm | hm
      · rw [hm]; exact hdisj w (by simp [hw])
      · rw [hm, lookupConv_append, hdisj w (by simp [hw])]
        have hne : ¬ w.2 = q.2 := by
          intro hcontra
          exact hkeys.1 (hcontra ▸ List.mem_map_of_mem _ hw)
        simp [hne]

lemma preparedFiles_eq (conv : Nat → Str → Option String) (tempDir : Str)
    (sources : List Str) (hnd : sources.Nodup) :
    preparedFiles conv tempDir true sources
      = sources.enum.map
          (fun p => if convOkAt conv p then convDst tempDir p.2 p.1 else p.2) := by
  rw [preparedFiles, phase1]
  simp only [if_pos]
  have hkeys : (sources.enum.map Prod.snd).Nodup := by
    rw [List.enum_map_snd]; exact hnd
  have hlk := phase1_fold_lookup conv tempDir sources.enum ⟨[], 0, []⟩ hkeys
    (fun p _ => rfl)
  have h1 : sources.map (fun src =>
      (lookupConv (sources.enum.foldl (phase1Step conv tempDir)
          ⟨[], 0, []⟩).convertedMap src).getD src)
      = (sources.enum.map Prod.snd).map (fun src =>
          (lookupConv (sources.enum.foldl (phase1Step conv tempDir)
            ⟨[], 0, []⟩).convertedMap src).getD src) := by
    rw [List.enum_map_snd]
  rw [h1, List.map_map]
  refine List.map_congr_left ?_
  intro p hp
  have := hlk p hp
  simp only [Function.comp_apply]
  rw [this]
  by_cases h : convOkAt conv p <;> simp [h]

lemma countP_flac_split (conv : Nat → Str → Option String) (l : List (Nat × Str)) :
    l.countP (fun p => isFlacName p.2)
      = l.countP (convOkAt conv) + l.countP (convFailAt conv) := by
  induction l with
  | nil => rfl
  | cons p ps ih =>
    simp only [List.countP_cons, convOkAt, convFailAt]
    simp only [convOkAt, convFailAt] at ih
    rw [ih]
    by_cases hf : isFlacName p.2
    · by_cases hc : conv p.1 p.2 = none
      · simp [hf, hc]
        omega
      · obtain ⟨v, hv⟩ := Option.ne_none_iff_exists'.1 hc
        simp [hf, hv]
        omega
    · simp [hf]

/-- C3: in an add-operation with conversion enabled over a batch of N valid
(post-normalization) sources of which K have the `.flac` extension and
K-1 of those fail conversion, the copy phase is handed exactly N paths in
caller order — the one successfully converted source replaced by its
scratch path and the other N-1 passed through unchanged — and the result
reports `converted_count = 1` and `conversion_failed_count = K-1`; no
individual conversion failure aborts the batch. -/
theorem C3_two_phase_conversion (pathExists isfile : Str → Bool) (cwd : Str)
    (conv : Nat → Str → Option String) (run : RunOracle) (tempDir mountpoint : Str)
    (filePaths : List PyVal) (N K : Nat) (r : Completed)
    (hmp : mountpoint ≠ []) (hex : pathExists mountpoint = true)
    (hne : normalize_local_paths isfile cwd filePaths ≠ [])
    (hN : (normalize_local_paths isfile cwd filePaths).length = N)
    (hK : (normalize_local_paths isfile cwd filePaths).countP isFlacName = K)
    (hfail : (normalize_local_paths isfile cwd filePaths).enum.countP (convFailAt conv)
        = K - 1)
    (hK1 : 1 ≤ K)
    (hrun : run (cpArgv mountpoint (preparedFiles conv tempDir true
        (normalize_local_paths isfile cwd filePaths))) = .ok r)
    (hrc : r.returncode = 0) :
    (preparedFiles conv tempDir true (normalize_local_paths isfile cwd filePaths)).length
        = N ∧
    preparedFiles conv tempDir true (normalize_local_paths isfile cwd filePaths)
      = (normalize_local_paths isfile cwd filePaths).enum.map
          (fun p => if convOkAt conv p then convDst tempDir p.2 p.1 else p.2) ∧
    (normalize_local_paths isfile cwd filePaths).enum.countP (convOkAt conv) = 1 ∧
    ∃ res,
      (add_tracks pathExists isfile cwd conv run tempDir mountpoint filePaths true).1
        = .ok res ∧
      res.convertedCount = 1 ∧ res.conversionFailedCount = K - 1 := by
  have hnd : (normalize_local_paths isfile cwd filePaths).Nodup := by
    obtain ⟨δ, h1, _, h3, _⟩ :=
      local_fold_spec isfile cwd filePaths [] List.nodup_nil (by simp)
    rw [normalize_local_paths, h1]
    simpa using h3
  have hKenum : (normalize_local_paths isfile cwd filePaths).enum.countP
      (fun p => isFlacName p.2) = K := by
    have h2 := List.countP_map (isFlacName) Prod.snd
      (l := (normalize_local_paths isfile cwd filePaths).enum)
    rw [List.enum_map_snd] at h2
    show (normalize_local_paths isfile cwd filePaths).enum.countP (isFlacName ∘ Prod.snd) = K
    rw [← h2]
    exact hK
  have hok : (normalize_local_paths isfile cwd filePaths).enum.countP (convOkAt conv)
      = 1 := by
    have hsplit := countP_flac_split conv (normalize_local_paths isfile cwd filePaths).enum
    omega
  have hprep := preparedFiles_eq conv tempDir (normalize_local_paths isfile cwd filePaths) hnd
  refine ⟨?_, hprep, hok, ?_⟩
  · rw [preparedFiles, List.length_map, hN]
  · refine ⟨⟨(normalize_local_paths isfile cwd filePaths).length,
        (phase1 conv tempDir true (normalize_local_paths isfile cwd filePaths)).convertedCount,
        (phase1 conv tempDir true (normalize_local_paths isfile cwd filePaths)).failures.length,
        (phase1 conv tempDir true (normalize_local_paths isfile cwd filePaths)).failures,
        joinStreams (collectStream r.stdout), joinStreams (collectStream r.stderr)⟩, ?_, ?_, ?_⟩
    · rw [add_tracks, if_neg hmp, if_neg (by simp [hex]), if_neg hne, hrun]
      simp [hrc]
    · show (phase1 conv tempDir true (normalize_local_paths isfile cwd filePaths)).convertedCount = 1
      rw [phase1, if_pos rfl, phase1_fold_count]
      simpa using hok
    · show (phase1 conv tempDir true (normalize_local_paths isfile cwd filePaths)).failures.length
        = K - 1
      rw [phase1, if_pos rfl, phase1_fold_failures]
      simpa using hfail

/-- Filesystem oracle for the concrete C3 batch. -/
def c3isfile : Str → Bool := fun s =>
  s == "/m/a.flac".toList || s == "/m/b.flac".toList || s == "/m/c.mp3".toList

/-- Conversion oracle for the concrete C3 batch: the first source fails. -/
def c3conv : Nat → Str → Option String := fun i _ => if i = 0 then some "boom" else none

/-- Copy oracle for the concrete C3 batch: every invocation succeeds. -/
def c3run : RunOracle := fun _ => .ok ⟨0, "ok", ""⟩

/-- The concrete C3 batch: two FLAC sources and one MP3. -/
def c3files : List PyVal :=
  [PyVal.str "/m/a.flac".toList, PyVal.str "/m/b.flac".toList, PyVal.str "/m/c.mp3".toList]

/-- C3 (witness): the theorem applied concretely — N = 3, K = 2, one of the
two FLAC conversions fails, and the batch still succeeds with
`converted_count = 1` and `conversion_failed_count = 1`. -/
theorem C3_two_phase_conversion_witness :
    (preparedFiles c3conv "/tmp".toList true
        (normalize_local_paths c3isfile "/".toList c3files)).length = 3 ∧
    preparedFiles c3conv "/tmp".toList true
        (normalize_local_paths c3isfile "/".toList c3files)
      = (normalize_local_paths c3isfile "/".toList c3files).enum.map
          (fun p => if convOkAt c3conv p then convDst "/tmp".toList p.2 p.1 else p.2) ∧
    (normalize_local_paths c3isfile "/".toList c3files).enum.countP (convOkAt c3conv)
        = 1 ∧
    ∃ res,
      (add_tracks (fun _ => true) c3isfile "/".toList c3conv c3run "/tmp".toList
          "/mnt/ipod".toList c3files true).1 = .ok res ∧
      res.convertedCount = 1 ∧ res.conversionFailedCount = 2 - 1 :=
  C3_two_phase_conversion (fun _ => true) c3isfile "/".toList c3conv c3run
    "/tmp".toList "/mnt/ipod".toList c3files 3 2 ⟨0, "ok", ""⟩
    (by decide) rfl (by decide) (by decide) (by decide) (by decide) (by decide) rfl rfl

/-- The `gpod-rm` argument vector. -/
def rmArgv (mountpoint : Str) (targets : List Str) : List Str :=
  "gpod-rm".toList :: "-M".toList :: mountpoint :: targets

/-- The stream merge of the per-item fallback:
`merged + ("\n" if merged and res else "") + res`. -/
def mergeStream (a b : String) : String :=
  a ++ (if a ≠ "" ∧ b ≠ "" then "\n" else "") ++ b

/-- One merge step of the per-item fallback's accumulated
`CompletedProcess`. -/
def mergeCompleted (merged res : Completed) : Completed :=
  { returncode := if res.returncode ≠ 0 then res.returncode else merged.returncode,
    stdout := mergeStream merged.stdout res.stdout,
    stderr := mergeStream merged.stderr res.stderr }

/-- The per-item fallback loop of `_run_gpod_rm`: one invocation per target
in order, stopping after the first nonzero exit; a raised launch error
propagates.  Also returns the argument vectors launched. -/
def rmFallback (run : RunOracle) (mountpoint : Str) :
    List Str → Completed → Except RunRaise Completed × List (List Str)
  | [], merged => (.ok merged, [])
  | t :: ts, merged =>
    match run (rmArgv mountpoint [t]) with
    | .error e => (.error e, [rmArgv mountpoint [t]])
    | .ok res =>
      if res.returncode ≠ 0 then
        (.ok (mergeCompleted merged res), [rmArgv mountpoint [t]])
      else
        ((rmFallback run mountpoint ts (mergeCompleted merged res)).1,
         rmArgv mountpoint [t] :: (rmFallback run mountpoint ts (mergeCompleted merged res)).2)

/-- Embedding of `_run_gpod_rm`: one batched invocation, degrading to the
per-item fallback when the batch raises `E2BIG`.  Also returns the
argument vectors launched. -/
def run_gpod_rm (run : RunOracle) (mountpoint : Str) (targets : List Str) :
    Except RunRaise Completed × List (List Str) :=
  match run (rmArgv mountpoint targets) with
  | .error .argListTooLong =>
    ((rmFallback run mountpoint targets ⟨0, "", ""⟩).1,
     rmArgv mountpoint targets :: (rmFallback run mountpoint targets ⟨0, "", ""⟩).2)
  | other => (other, [rmArgv mountpoint targets])

/-- Errors `delete_tracks` can raise. -/
inductive DelError where
  | emptyMountpoint
  | mountpointMissing
  | noValidTargets
  | rmNotInstalled
  | rmTimeout
  | tooManyTargets
  | rmOsFailed (msg : String)
  | rmFailed (msg : String)
deriving DecidableEq

/-- The success payload of `delete_tracks`. -/
structure DelResult where
  requestedCount : Nat
  stdout : String
  stderr : String
deriving DecidableEq

/-- Embedding of `delete_tracks`, with the launched argument vectors. -/
def delete_tracks (pathExists : Str → Bool) (run : RunOracle)
    (mountpoint : Str) (ipodPaths : List PyVal) :
    Except DelError DelResult × List (List Str) :=
  if mountpoint = [] then (.error .emptyMountpoint, [])
  else if ¬ pathExists mountpoint then (.error .mountpointMissing, [])
  else if normalize_rm_targets ipodPaths = [] then (.error .noValidTargets, [])
  else
    match run_gpod_rm run mountpoint (normalize_rm_targets ipodPaths) with
    | (.error .fileNotFound, log) => (.error .rmNotInstalled, log)
    | (.error .timeout, log) => (.error .rmTimeout, log)
    | (.error .argListTooLong, log) => (.error .tooManyTargets, log)
    | (.error (.osError m), log) => (.error (.rmOsFailed m), log)
    | (.ok r, log) =>
      if r.returncode ≠ 0 then
        (.error (.rmFailed (messageOf r "Unknown gpod-rm error.")), log)
      else
        (.ok { requestedCount := (normalize_rm_targets ipodPaths).length,
               stdout := joinStreams (collectStream r.stdout),
               stderr := joinStreams (collectStream r.stderr) }, log)

/-- The exit code of a single-target invocation (`0` when the launch
raised; only consulted under a no-raise hypothesis). -/
def singleRc (run : RunOracle) (mountpoint t : Str) : Int :=
  match run (rmArgv mountpoint [t]) with
  | .ok r => r.returncode
  | .error _ => 0

/-- The targets the per-item fallback actually processes: the prefix up to
and including the first failing one. -/
def processedTargets (run : RunOracle) (mountpoint : Str) (targets : List Str) :
    List Str :=
  targets.takeWhile (fun t => singleRc run mountpoint t == 0) ++
    (targets.dropWhile (fun t => singleRc run mountpoint t == 0)).take 1

lemma processedTargets_cons_ok {run : RunOracle} {mountpoint t : Str} (ts : List Str)
    (h : singleRc run mountpoint t = 0) :
    processedTargets run mountpoint (t :: ts) = t :: processedTargets run mountpoint ts := by
  rw [processedTargets, processedTargets, List.takeWhile_cons, List.dropWhile_cons]
  simp [h]

lemma processedTargets_cons_fail {run : RunOracle} {mountpoint t : Str} (ts : List Str)
    (h : ¬ singleRc run mountpoint t = 0) :
    processedTargets run mountpoint (t :: ts) = [t] := by
  rw [processedTargets, List.takeWhile_cons, List.dropWhile_cons]
  simp [h]

lemma rmFallback_spec (run : RunOracle) (mountpoint : Str) (targets : List Str)
    (merged : Completed)
    (hok : ∀ t ∈ targets, ∃ r, run (rmArgv mountpoint [t]) = .ok r) :
    ∃ M, rmFallback run mountpoint targets merged
        = (.ok M, (processedTargets run mountpoint targets).map
            (fun t => rmArgv mountpoint [t])) ∧
      (M.returncode ≠ 0 ↔ merged.returncode ≠ 0 ∨
        ∃ t ∈ processedTargets run mountpoint targets,
          singleRc run mountpoint t ≠ 0) := by
  induction targets generalizing merged with
  | nil =>
    refine ⟨merged, rfl, ?_⟩
    simp [processedTargets]
  | cons t ts ih =>
    obtain ⟨r, hr⟩ := hok t (by simp)
    have hsr : singleRc run mountpoint t = r.returncode := by
      rw [singleRc, hr]
    by_cases hrc : r.returncode = 0
    · obtain ⟨M, hM, hiff⟩ := ih (mergeCompleted merged r)
        (fun w hw => hok w (by simp [hw]))
      have hmrc : (mergeCompleted merged r).returncode = merged.returncode := by
        rw [mergeCompleted]
        simp [hrc]
      refine ⟨M, ?_, ?_⟩
      · rw [rmFallback, hr]
        simp only [hrc, ne_eq, not_true_eq_false, if_false, ite_false, hM]
        rw [processedTargets_cons_ok ts (by rw [hsr]; exact hrc)]
        simp
      · rw [hiff, hmrc, processedTargets_cons_ok ts (by rw [hsr]; exact hrc)]
        constructor
        · rintro (h | ⟨w, hw, hws⟩)
          · exact Or.inl h
          · exact Or.inr ⟨w, by simp [hw], hws⟩
        · rintro (h | ⟨w, hw, hws⟩)
          · exact Or.inl h
          · rcases List.mem_cons.1 hw with hweq | hw'
            · subst hweq
              rw [hsr] at hws
              exact absurd hrc hws
            · exact Or.inr ⟨w, hw', hws⟩
    · refine ⟨mergeCompleted merged r, ?_, ?_⟩
      · rw [rmFallback, hr]
        simp only [hrc, ne_eq, not_false_eq_true, if_true, ite_true]
        rw [processedTargets_cons_fail ts (by rw [hsr]; exact hrc)]
        simp
      · have hmrc : (mergeCompleted merged r).returncode = r.returncode := by
          rw [mergeCompleted]
          simp [hrc]
        rw [hmrc, processedTargets_cons_fail ts (by rw [hsr]; exact hrc)]
        constructor
        · intro _
          exact Or.inr ⟨t, by simp, by rw [hsr]; exact hrc⟩
        · intro _
          exact hrc

/-- C5: when the single batched `gpod-rm` invocation raises `E2BIG` and the
per-target invocations all launch, the delete path retries with one
invocation per normalized target in input order, stopping after the first
nonzero exit; the merged exit code is nonzero iff some individual
invocation returned nonzero; and the too-many-arguments error does not
reach the caller. -/
theorem C5_delete_fallback (pathExists : Str → Bool) (run : RunOracle)
    (mountpoint : Str) (ipodPaths : List PyVal)
    (hmp : mountpoint ≠ []) (hex : pathExists mountpoint = true)
    (hne : normalize_rm_targets ipodPaths ≠ [])
    (hbatch : run (rmArgv mountpoint (normalize_rm_targets ipodPaths))
        = .error .argListTooLong)
    (hok : ∀ t ∈ normalize_rm_targets ipodPaths,
        ∃ r, run (rmArgv mountpoint [t]) = .ok r) :
    ∃ M, run_gpod_rm run mountpoint (normalize_rm_targets ipodPaths)
        = (.ok M, rmArgv mountpoint (normalize_rm_targets ipodPaths) ::
            (processedTargets run mountpoint (normalize_rm_targets ipodPaths)).map
              (fun t => rmArgv mountpoint [t])) ∧
      (M.returncode ≠ 0 ↔
        ∃ t ∈ processedTargets run mountpoint (normalize_rm_targets ipodPaths),
          singleRc run mountpoint t ≠ 0) ∧
      (delete_tracks pathExists run mountpoint ipodPaths).1
        ≠ .error .tooManyTargets := by
  obtain ⟨M, hM, hiff⟩ :=
    rmFallback_spec run mountpoint (normalize_rm_targets ipodPaths) ⟨0, "", ""⟩ hok
  have hrg : run_gpod_rm run mountpoint (normalize_rm_targets ipodPaths)
      = (.ok M, rmArgv mountpoint (normalize_rm_targets ipodPaths) ::
          (processedTargets run mountpoint (normalize_rm_targets ipodPaths)).map
            (fun t => rmArgv mountpoint [t])) := by
    rw [run_gpod_rm, hbatch, hM]
  refine ⟨M, hrg, ?_, ?_⟩
  · simpa using hiff
  · rw [delete_tracks, if_neg hmp, if_neg (by simp [hex]), if_neg hne, hrg]
    by_cases hm0 : M.returncode = 0 <;> simp [hm0]

/-- Delete oracle for the concrete C5 batch: the batched invocation is too
long, the per-target invocation for `"2"` fails, the rest succeed. -/
def c5run : RunOracle := fun args =>
  if 6 ≤ args.length then .error .argListTooLong
  else if args == rmArgv "/ipod".toList ["2".toList] then .ok ⟨1, "", "fail"⟩
  else .ok ⟨0, "ok", ""⟩

/-- The concrete C5 delete request: three numeric targets. -/
def c5paths : List PyVal :=
  [PyVal.str "1".toList, PyVal.str "2".toList, PyVal.str "3".toList]

/-- C5 (witness): the theorem applied concretely — three targets, batch
raises `E2BIG`, the second per-target invocation fails, and the merged
result is a nonzero-exit completion rather than a too-many-arguments
error. -/
theorem C5_delete_fallback_witness :
    ∃ M, run_gpod_rm c5run "/ipod".toList (normalize_rm_targets c5paths)
        = (.ok M, rmArgv "/ipod".toList (normalize_rm_targets c5paths) ::
            (processedTargets c5run "/ipod".toList (normalize_rm_targets c5paths)).map
              (fun t => rmArgv "/ipod".toList [t])) ∧
      (M.returncode ≠ 0 ↔
        ∃ t ∈ processedTargets c5run "/ipod".toList (normalize_rm_targets c5paths),
          singleRc c5run "/ipod".toList t ≠ 0) ∧
      (delete_tracks (fun _ => true) c5run "/ipod".toList c5paths).1
        ≠ .error .tooManyTargets :=
  C5_delete_fallback (fun _ => true) c5run "/ipod".toList c5paths
    (by decide) rfl (by decide) rfl
    (by
      intro t ht
      have hnorm : normalize_rm_targets c5paths
          = ["1".toList, "2".toList, "3".toList] := by decide
      rw [hnorm] at ht
      fin_cases ht
      · exact ⟨_, rfl⟩
      · exact ⟨_, rfl⟩
      · exact ⟨_, rfl⟩)

/-- Whether the first string is a prefix of the second. -/
def leadsWith : Str → Str → Bool
  | [], _ => true
  | _ :: _, [] => false
  | p :: ps, c :: cs => p == c && leadsWith ps cs

/-- Python's `in` substring test. -/
def containsSub (pattern : Str) : Str → Bool
  | [] => pattern.isEmpty
  | c :: cs => leadsWith pattern (c :: cs) || containsSub pattern cs

/-- Embedding of `_looks_like_missing_itunesdb`. -/
def looks_like_missing_itunesdb (message : String) : Bool :=
  containsSub "couldn't find an ipod database".toList (message.toList.map Char.toLower) ||
  containsSub "failed to parse itunesdb".toList (message.toList.map Char.toLower) ||
  containsSub "failed to prase itunesdb".toList (message.toList.map Char.toLower)

/-- What one candidate probe observes during a pass of the recovery loop:
its path does not exist, the listing tool times out, or the listing tool
completes. -/
inductive CandObs where
  | absent
  | timedOut
  | res (r : Completed)
deriving DecidableEq

/-- One generated `(ls_arg, effective_mountpoint)` candidate together with
what probing it observes this pass. -/
structure Cand where
  mount : Str
  obs : CandObs
deriving DecidableEq

/-- The `GpodError` raises `_run_gpod_ls_with_recovery` can end with. -/
inductive LsRaise where
  | timedOutReading
  | notReadable
  | unavailable
deriving DecidableEq

/-- Control state while scanning one pass's candidates: either the loop
already returned/raised, or it is still falling through with the current
`saw_any_path` flag and `last_missing_db_result`. -/
inductive ScanResult where
  | early (res : Except LsRaise (Str × Completed))
  | fallthrough (sawAnyPath : Bool) (lastMissing : Option (Str × Completed))

/-- One candidate probe of `_run_gpod_ls_with_recovery`'s inner `for` loop. -/
def scanStep (deadlinePassed : Bool) : ScanResult → Cand → ScanResult
  | .early res, _ => .early res
  | .fallthrough saw lm, c =>
    match c.obs with
    | .absent => .fallthrough saw lm
    | .timedOut =>
      if deadlinePassed then .early (.error .timedOutReading)
      else .fallthrough true lm
    | .res r =>
      if r.returncode = 0 then .early (.ok (c.mount, r))
      else if looks_like_missing_itunesdb (messageOf r "Unknown gpod-ls error.") then
        .fallthrough true (some (c.mount, r))
      else .early (.ok (c.mount, r))

/-- One full pass over the candidates (state is reset at the top of each
pass, as in the `while True` body). -/
def scanRound (deadlinePassed : Bool) (cands : List Cand) : ScanResult :=
  cands.foldl (scanStep deadlinePassed) (.fallthrough false none)

/-- Embedding of `_run_gpod_ls_with_recovery`: `prior` are the passes that
run while the deadline has not yet passed; `finalRound` is the pass during
which the deadline has passed (time is abstracted to the pass structure
the monotonic clock induces). -/
def run_gpod_ls_with_recovery (prior : List (List Cand)) (finalRound : List Cand) :
    Except LsRaise (Str × Completed) :=
  match prior with
  | [] =>
    match scanRound true finalRound with
    | .early res => res
    | .fallthrough saw lm =>
      match lm with
      | some x => .ok x
      | none => if saw then .error .notReadable else .error .unavailable
  | r :: rs =>
    match scanRound false r with
    | .early res => res
    | .fallthrough _ _ => run_gpod_ls_with_recovery rs finalRound

/-- Whether some candidate path of the pass existed on disk. -/
def roundSawPath (cands : List Cand) : Bool :=
  cands.any (fun c => c.obs ≠ .absent)

/-- The missing-database completion a candidate contributes, if any. -/
def isMissingDbObs (c : Cand) : Option (Str × Completed) :=
  match c.obs with
  | .res r =>
    if r.returncode ≠ 0 ∧
        looks_like_missing_itunesdb (messageOf r "Unknown gpod-ls error.") = true then
      some (c.mount, r)
    else none
  | _ => none

/-- The last missing-database result a pass records. -/
def roundLastMissing (cands : List Cand) : Option (Str × Completed) :=
  (cands.filterMap isMissingDbObs).getLast?

/-- `Option` bias to the left, as the fold state accumulates. -/
def optOr (a b : Option (Str × Completed)) : Option (Str × Completed) :=
  match a with
  | some x => some x
  | none => b

lemma scan_fold_early (d : Bool) (cands : List Cand)
    (res : Except LsRaise (Str × Completed)) :
    cands.foldl (scanStep d) (.early res) = .early res := by
  induction cands with
  | nil => rfl
  | cons c cs ih => exact ih

lemma getLast?_cons {α : Type} (a : α) (l : List α) :
    (a :: l).getLast? = match l.getLast? with
      | some y => some y
      | none => some a := by
  cases l with
  | nil => rfl
  | cons b bs =>
    rw [List.getLast?_cons_cons]
    cases hbl : (b :: bs).getLast? with
    | none => simp at hbl
    | some y => rfl

lemma scan_fold_fallthrough (d : Bool) (cands : List Cand) :
    ∀ (saw0 saw : Bool) (lm0 lm : Option (Str × Completed)),
    cands.foldl (scanStep d) (.fallthrough saw0 lm0) = .fallthrough saw lm →
    saw = (saw0 || roundSawPath cands) ∧ lm = optOr (roundLastMissing cands) lm0 := by
  induction cands with
  | nil =>
    intro saw0 saw lm0 lm h
    rw [List.foldl_nil] at h
    injection h with h1 h2
    subst h1
    subst h2
    exact ⟨by simp [roundSawPath], by simp [roundLastMissing, optOr]⟩
  | cons c cs ih =>
    intro saw0 saw lm0 lm h
    rw [List.foldl_cons] at h
    have hsawcons : roundSawPath (c :: cs) = (decide (c.obs ≠ .absent) || roundSawPath cs) := by
      simp [roundSawPath]
    cases hobs : c.obs with
    | absent =>
      rw [scanStep, hobs] at h
      obtain ⟨h1, h2⟩ := ih saw0 saw lm0 lm h
      refine ⟨?_, ?_⟩
      · rw [hsawcons, hobs]
        simpa using h1
      · rw [roundLastMissing, List.filterMap_cons]
        have hmobs : isMissingDbObs c = none := by rw [isMissingDbObs, hobs]
        rw [hmobs]
        exact h2
    | timedOut =>
      rw [scanStep, hobs] at h
      by_cases hd : d = true
      · rw [if_pos hd] at h
        rw [scan_fold_early] at h
        exact absurd h (by simp)
      · rw [if_neg hd] at h
        obtain ⟨h1, h2⟩ := ih true saw lm0 lm h
        refine ⟨?_, ?_⟩
        · rw [hsawcons, hobs]
          simp at h1
          simp [h1]
        · rw [roundLastMissing, List.filterMap_cons]
          have hmobs : isMissingDbObs c = none := by rw [isMissingDbObs, hobs]
          rw [hmobs]
          exact h2
    | res r =>
      rw [scanStep, hobs] at h
      have h' : List.foldl (scanStep d)
          (if r.returncode = 0 then ScanResult.early (Except.ok (c.mount, r))
           else if looks_like_missing_itunesdb (messageOf r "Unknown gpod-ls error.") = true then
             ScanResult.fallthrough true (some (c.mount, r))
           else ScanResult.early (Except.ok (c.mount, r))) cs
          = ScanResult.fallthrough saw lm := h
      clear h
      rename' h' => h
      by_cases hrc : r.returncode = 0
      · rw [if_pos hrc, scan_fold_early] at h
        exact absurd h (by simp)
      · rw [if_neg hrc] at h
        by_cases hmiss : looks_like_missing_itunesdb (messageOf r "Unknown gpod-ls error.") = true
        · rw [if_pos hmiss] at h
          obtain ⟨h1, h2⟩ := ih true saw (some (c.mount, r)) lm h
          have hmobs : isMissingDbObs c = some (c.mount, r) := by
            rw [isMissingDbObs, hobs]
            simp [hrc, hmiss]
          refine ⟨?_, ?_⟩
          · rw [hsawcons, hobs]
            simp at h1
            simp [h1]
          · rw [roundLastMissing, List.filterMap_cons, hmobs, getLast?_cons]
            rw [h2]
            rw [roundLastMissing]
            cases (cs.filterMap isMissingDbObs).getLast? with
            | none => rfl
            | some y => rfl
        · rw [if_neg hmiss, scan_fold_early] at h
          exact absurd h (by simp)

lemma recovery_prior_skip (prior : List (List Cand)) (finalCands : List Cand)
    (hprior : ∀ r ∈ prior, ∃ s l, scanRound false r = ScanResult.fallthrough s l) :
    run_gpod_ls_with_recovery prior finalCands
      = run_gpod_ls_with_recovery [] finalCands := by
  induction prior with
  | nil => rfl
  | cons r rs ih =>
    obtain ⟨s, l, hr⟩ := hprior r (by simp)
    have hstep : run_gpod_ls_with_recovery (r :: rs) finalCands
        = match scanRound false r with
          | ScanResult.early res => res
          | ScanResult.fallthrough _ _ => run_gpod_ls_with_recovery rs finalCands := rfl
    rw [hstep, hr]
    exact ih fun w hw => hprior w (by simp [hw])

/-- The three-way deadline decision at the end of the final pass. -/
def deadlineOutcome (saw : Bool) (lm : Option (Str × Completed)) :
    Except LsRaise (Str × Completed) :=
  match lm with
  | some x => .ok x
  | none => if saw then .error .notReadable else .error .unavailable

/-- C4 (amended): when the recovery loop's deadline passes without a
successful or hard-failing listing result, the outcome is decided by the
**final pass only** (the per-pass state is reset at the top of each pass):
if that pass recorded a missing-database result, the last such result is
returned as the final failing result; otherwise, if some candidate path
existed on disk during that pass, the loop raises the
present-but-not-readable error; otherwise it raises the
became-unavailable error. -/
theorem C4_recovery_deadline (prior : List (List Cand)) (finalCands : List Cand)
    (saw : Bool) (lm : Option (Str × Completed))
    (hprior : ∀ r ∈ prior, ∃ s l, scanRound false r = ScanResult.fallthrough s l)
    (hfinal : scanRound true finalCands = ScanResult.fallthrough saw lm) :
    saw = roundSawPath finalCands ∧ lm = roundLastMissing finalCands ∧
    run_gpod_ls_with_recovery prior finalCands = deadlineOutcome saw lm := by
  obtain ⟨h1, h2⟩ := scan_fold_fallthrough true finalCands false saw none lm hfinal
  have hsaw : saw = roundSawPath finalCands := by simpa using h1
  have hlm : lm = roundLastMissing finalCands := by
    rw [h2]
    cases roundLastMissing finalCands with
    | none => rfl
    | some y => rfl
  refine ⟨hsaw, hlm, ?_⟩
  rw [recovery_prior_skip prior finalCands hprior]
  rw [run_gpod_ls_with_recovery, hfinal]
  cases lm with
  | none => rfl
  | some x => rfl

/-- C4 (witness): the amended theorem applied concretely — with no earlier
passes and a final pass containing one missing-database completion, that
result is returned as the final failing result. -/
theorem C4_recovery_deadline_witness :
    true = roundSawPath
        [⟨"/ipod".toList, CandObs.res ⟨1, "", "Couldn't find an iPod database"⟩⟩] ∧
    some ("/ipod".toList, (⟨1, "", "Couldn't find an iPod database"⟩ : Completed))
      = roundLastMissing
          [⟨"/ipod".toList, CandObs.res ⟨1, "", "Couldn't find an iPod database"⟩⟩] ∧
    run_gpod_ls_with_recovery []
        [⟨"/ipod".toList, CandObs.res ⟨1, "", "Couldn't find an iPod database"⟩⟩]
      = deadlineOutcome true
          (some ("/ipod".toList, ⟨1, "", "Couldn't find an iPod database"⟩)) :=
  C4_recovery_deadline []
    [⟨"/ipod".toList, CandObs.res ⟨1, "", "Couldn't find an iPod database"⟩⟩]
    true (some ("/ipod".toList, ⟨1, "", "Couldn't find an iPod database"⟩))
    (by intro r hr; simp at hr) rfl

/-- C4 (counterexample): a run in which the first (pre-deadline) pass
captures a missing-database result but the final pass sees no candidate
paths at all: the loop raises the became-unavailable error instead of
returning the captured missing-database result, refuting "captured at any
point during the loop". -/
theorem C4_counterexample :
    scanRound false
        [⟨"/ipod".toList, CandObs.res ⟨1, "", "Couldn't find an iPod database"⟩⟩]
      = ScanResult.fallthrough true
          (some ("/ipod".toList, ⟨1, "", "Couldn't find an iPod database"⟩)) ∧
    run_gpod_ls_with_recovery
        [[⟨"/ipod".toList, CandObs.res ⟨1, "", "Couldn't find an iPod database"⟩⟩]] []
      = .error .unavailable := by
  constructor
  · rfl
  · rfl

/-- A JSON primitive value as Python sees it after `json.loads` (`null`
and an absent key are both `None` through `dict.get`, so both are the
`Option.none` of the surrounding field). -/
inductive JPrim where
  | jint (n : Int)
  | jstr (s : String)
  | jbool (b : Bool)
deriving DecidableEq

/-- The digits of a nonempty all-digit string, as a number. -/
def natOfDigits (s : Str) : Nat :=
  s.foldl (fun acc c => acc * 10 + (c.toNat - 48)) 0

/-- The digit parse used by `int()`: nonempty, all ASCII digits. -/
def digitsToNat (s : Str) : Option Nat :=
  if s ≠ [] ∧ s.all (·.isDigit) = true then some (natOfDigits s) else none

/-- Python `int()` applied to a string: optional surrounding whitespace,
optional sign, nonempty digits; `none` models the raised `ValueError`. -/
def pyIntOfString (s : Str) : Option Int :=
  match pyStrip s with
  | [] => none
  | c :: cs =>
    if c = '-' then (digitsToNat cs).map fun n => -(n : Int)
    else if c = '+' then (digitsToNat cs).map fun n => (n : Int)
    else (digitsToNat (c :: cs)).map fun n => (n : Int)

/-- Python `int()` on a JSON primitive. -/
def pyInt : JPrim → Option Int
  | .jint n => some n
  | .jbool b => some (if b then 1 else 0)
  | .jstr s => pyIntOfString s.toList

/-- Decimal-string parse used by `float()` (plain decimals, which is all
the service's data can contain). -/
def decToRat (s : Str) : Option ℚ :=
  match s.dropWhile (· ≠ '.') with
  | [] => (digitsToNat s).map fun n => (n : ℚ)
  | _ :: fp =>
    if fp.any (· = '.') then none
    else if s.takeWhile (· ≠ '.') = [] ∧ fp = [] then none
    else if (s.takeWhile (· ≠ '.')).all (·.isDigit) && fp.all (·.isDigit) then
      some ((natOfDigits (s.takeWhile (· ≠ '.')) : ℚ)
        + (natOfDigits fp : ℚ) / (10 : ℚ) ^ fp.length)
    else none

/-- Python `float()` applied to a string. -/
def pyFloatOfString (s : Str) : Option ℚ :=
  match pyStrip s with
  | [] => none
  | c :: cs =>
    if c = '-' then (decToRat cs).map Neg.neg
    else if c = '+' then decToRat cs
    else decToRat (c :: cs)

/-- Python `float()` on a JSON primitive (floats are idealized as
rationals). -/
def pyFloat : JPrim → Option ℚ
  | .jint n => some (n : ℚ)
  | .jbool b => some (if b then 1 else 0)
  | .jstr s => pyFloatOfString s.toList

/-- Python truthiness of an optional JSON primitive (`None`, `0`, `""` and
`False` are falsy). -/
def pyTruthy : Option JPrim → Bool
  | none => false
  | some (.jint n) => n ≠ 0
  | some (.jstr s) => s ≠ ""
  | some (.jbool b) => b

/-- `value or default` for optional string fields. -/
def orDefaultStr (v : Option String) (dflt : String) : String :=
  match v with
  | some s => if s ≠ "" then s else dflt
  | none => dflt

/-- `int(track.get(key) or 0)`. -/
def intOrZero (v : Option JPrim) : Option Int :=
  if pyTruthy v then pyInt (v.getD (.jint 0)) else some 0

/-- `float(track.get("tracklen", 0))`. -/
def tracklenFloat (v : Option JPrim) : Option ℚ :=
  match v with
  | none => some 0
  | some p => pyFloat p

/-- Round-half-even to an integer, as Python's `round`. -/
def roundHalfEven (x : ℚ) : Int :=
  if x - ⌊x⌋ < 1/2 then ⌊x⌋
  else if 1/2 < x - ⌊x⌋ then ⌊x⌋ + 1
  else if ⌊x⌋ % 2 = 0 then ⌊x⌋ else ⌊x⌋ + 1

/-- `round(x, 2)`. -/
def round2 (x : ℚ) : ℚ :=
  (roundHalfEven (x * 100) : ℚ) / 100

/-- The raw track record handed to `_normalize_track` (fields the service
reads; JSON strings typed as such, numeric-or-garbage fields as
primitives). -/
structure RawTrack where
  id : Option Int
  title : Option String
  artist : Option String
  album : Option String
  genre : Option String
  year : Option JPrim
  playcount : Option JPrim
  bitrate : Option JPrim
  size : Option JPrim
  tracklen : Option JPrim
  ipod_path : Option String
  artwork : Option JPrim
  checksum : Option String
deriving DecidableEq

/-- The normalized track dictionary `_normalize_track` builds. -/
structure NormTrack where
  id : Option Int
  title : String
  artist : String
  album : String
  genre : String
  year : Int
  playcount : Int
  bitrate : Int
  size_bytes : Int
  duration_seconds : ℚ
  ipod_path : String
  artwork : Bool
  checksum : Option String
deriving DecidableEq

/-- Embedding of `_normalize_track`; `none` models a `ValueError` raised by
`int()`/`float()` on a malformed field. -/
def normalize_track (t : RawTrack) : Option NormTrack :=
  match tracklenFloat t.tracklen with
  | none => none
  | some len =>
    match intOrZero t.year, intOrZero t.playcount, intOrZero t.bitrate, intOrZero t.size with
    | some y, some pc, some br, some sz =>
      some { id := t.id,
             title := orDefaultStr t.title "Unknown Title",
             artist := orDefaultStr t.artist "Unknown Artist",
             album := orDefaultStr t.album "Unknown Album",
             genre := orDefaultStr t.genre "",
             year := y, playcount := pc, bitrate := br, size_bytes := sz,
             duration_seconds := round2 (max (len / 1000) 0),
             ipod_path := orDefaultStr t.ipod_path "",
             artwork := pyTruthy t.artwork,
             checksum := t.checksum }
    | _, _, _, _ => none

/-- C7 (amended): track normalization defaults title/artist/album to the
"Unknown ..." placeholders and genre to the empty string when missing or
empty; the year is 0 when the field is absent or falsy and the parsed
integer when the field is a parseable value, but a **non-empty unparseable
year string raises** instead of yielding 0; and the duration in seconds is
the millisecond `tracklen` divided by 1000, floored at 0 and rounded
half-even to 2 decimals. -/
theorem C7_normalize_track :
    (∀ t nt, normalize_track t = some nt →
      nt.title = orDefaultStr t.title "Unknown Title" ∧
      nt.artist = orDefaultStr t.artist "Unknown Artist" ∧
      nt.album = orDefaultStr t.album "Unknown Album" ∧
      nt.genre = orDefaultStr t.genre "" ∧
      (pyTruthy t.year = false → nt.year = 0) ∧
      (∀ p, t.year = some p → pyTruthy t.year = true → pyInt p = some nt.year) ∧
      (∀ len, tracklenFloat t.tracklen = some len →
        nt.duration_seconds = round2 (max (len / 1000) 0))) ∧
    (∀ t s, t.year = some (.jstr s) → s ≠ "" → pyIntOfString s.toList = none →
      normalize_track t = none) := by
  constructor
  · intro t nt h
    rw [normalize_track] at h
    cases htl : tracklenFloat t.tracklen with
    | none => rw [htl] at h; simp at h
    | some len =>
      rw [htl] at h
      cases hy : intOrZero t.year with
      | none => rw [hy] at h; simp at h
      | some y =>
        cases hpc : intOrZero t.playcount with
        | none => rw [hy, hpc] at h; simp at h
        | some pc =>
          cases hbr : intOrZero t.bitrate with
          | none => rw [hy, hpc, hbr] at h; simp at h
          | some br =>
            cases hsz : intOrZero t.size with
            | none => rw [hy, hpc, hbr, hsz] at h; simp at h
            | some sz =>
              rw [hy, hpc, hbr, hsz] at h
              injection h with h
              subst h
              refine ⟨rfl, rfl, rfl, rfl, ?_, ?_, ?_⟩
              · intro hfalsy
                show y = 0
                rw [intOrZero, hfalsy] at hy
                simp at hy
                omega
              · intro p hp htruthy
                show pyInt p = some y
                rw [intOrZero, htruthy, if_pos rfl, hp] at hy
                exact hy
              · intro len' hlen'
                injection hlen' with heq
                rw [← heq]
  · intro t s hy hne hparse
    have htr : pyTruthy t.year = true := by
      rw [hy]
      simp [pyTruthy, hne]
    have hz : intOrZero t.year = none := by
      rw [intOrZero, htr, if_pos rfl, hy]
      show pyIntOfString s.toList = none
      exact hparse
    rw [normalize_track]
    cases htl : tracklenFloat t.tracklen with
    | none => rfl
    | some len => rw [hz]

/-- C7 (witness): the amended theorem applied concretely — a track whose
fields are all present and well-formed normalizes to the stated defaults
and duration. -/
theorem C7_normalize_track_witness :
    ∀ nt, normalize_track
        { id := some 10, title := some "", artist := some "Artist A",
          album := none, genre := none, year := some (.jint 2005),
          playcount := some (.jint 2), bitrate := some (.jint 192),
          size := some (.jint 123456), tracklen := some (.jint 180000),
          ipod_path := some "/x/A.mp3", artwork := some (.jbool true),
          checksum := none } = some nt →
      nt.title = orDefaultStr (some "") "Unknown Title" ∧
      nt.artist = orDefaultStr (some "Artist A") "Unknown Artist" ∧
      nt.album = orDefaultStr none "Unknown Album" ∧
      nt.genre = orDefaultStr none "" ∧
      (pyTruthy (some (.jint 2005)) = false → nt.year = 0) ∧
      (∀ p, (some (JPrim.jint 2005) : Option JPrim) = some p →
        pyTruthy (some (.jint 2005)) = true → pyInt p = some nt.year) ∧
      (∀ len, tracklenFloat (some (.jint 180000)) = some len →
        nt.duration_seconds = round2 (max (len / 1000) 0)) :=
  fun nt h => C7_normalize_track.1 _ nt h

/-- C7 (counterexample): a raw track whose year field is the non-numeric
string `"abc"`: normalization raises a `ValueError` (modelled as `none`)
instead of producing a year of 0, refuting "0 when ... unparseable". -/
theorem C7_counterexample :
    normalize_track
        { id := none, title := none, artist := none, album := none,
          genre := none, year := some (.jstr "abc"), playcount := none,
          bitrate := none, size := none, tracklen := none,
          ipod_path := none, artwork := none, checksum := none } = none := by
  rfl

/-- A parsed playlist item (the fields `_find_master_playlist` and
`load_library` read). -/
structure RawPlaylist where
  name : Option String
  ptype : Option String
  tracks : List RawTrack
deriving DecidableEq

/-- Embedding of `_find_master_playlist`; the empty-list fallback is the
`{"tracks": []}` dictionary. -/
def find_master_playlist (playlists : List RawPlaylist) : RawPlaylist :=
  match playlists.find? (fun p => p.ptype == some "master") with
  | some p => p
  | none =>
    match playlists.find? (fun p => p.name == some "iPod") with
    | some p => p
    | none => playlists.headD { name := none, ptype := none, tracks := [] }

/-- The in-order normalization `[_normalize_track(t) for t in tracks]`,
propagating the first raised error. -/
def normalize_tracks : List RawTrack → Option (List NormTrack)
  | [] => some []
  | t :: ts =>
    match normalize_track t with
    | none => none
    | some nt =>
      match normalize_tracks ts with
      | none => none
      | some nts => some (nt :: nts)

/-- The aggregate part of `load_library`'s response. -/
structure LibrarySummary where
  track_count : Nat
  artist_count : Nat
  album_count : Nat
  total_duration_seconds : ℚ
  tracks : List NormTrack
deriving DecidableEq

/-- The library aggregation of `load_library`: all aggregates derive from
the master playlist's normalized tracks. -/
def library_summary (playlists : List RawPlaylist) : Option LibrarySummary :=
  match normalize_tracks (find_master_playlist playlists).tracks with
  | none => none
  | some norm =>
    some { track_count := norm.length,
           artist_count := ((norm.filterMap fun t =>
             if t.artist ≠ "" then some t.artist else none).dedup).length,
           album_count := ((norm.filterMap fun t =>
             if t.album ≠ "" then some t.album else none).dedup).length,
           total_duration_seconds :=
             round2 (norm.foldl (fun acc t => acc + t.duration_seconds) 0),
           tracks := norm }

lemma find?_first {α : Type} (p : α → Bool) (l : List α) :
    ∀ (i : Nat) (hi : i < l.length), p (l.get ⟨i, hi⟩) = true →
    (∀ j (hj : j < i), p (l.get ⟨j, Nat.lt_trans hj hi⟩) = false) →
    l.find? p = some (l.get ⟨i, hi⟩) := by
  induction l with
  | nil => intro i hi; simp at hi
  | cons a as ih =>
    intro i hi hp hbefore
    cases i with
    | zero => exact List.find?_cons_of_pos _ hp
    | succ n =>
      have ha : p a = false := hbefore 0 (Nat.succ_pos n)
      rw [List.find?_cons_of_neg _ (by simp [ha])]
      exact ih n (Nat.lt_of_succ_lt_succ hi) hp
        fun j hj => hbefore (j + 1) (Nat.succ_lt_succ hj)

/-- C6: the master playlist is the first playlist whose type tag is
"master", else the first whose name is "iPod", else the first playlist,
else an empty playlist with no tracks; and the library's track list,
track count, artist count, album count and total duration are computed
only from that master playlist's normalized tracks. -/
theorem C6_master_playlist :
    (∀ (pls : List RawPlaylist) (i : Nat) (hi : i < pls.length),
        (pls.get ⟨i, hi⟩).ptype = some "master" →
        (∀ j (hj : j < i), (pls.get ⟨j, Nat.lt_trans hj hi⟩).ptype ≠ some "master") →
        find_master_playlist pls = pls.get ⟨i, hi⟩) ∧
    (∀ (pls : List RawPlaylist) (i : Nat) (hi : i < pls.length),
        (∀ q ∈ pls, q.ptype ≠ some "master") →
        (pls.get ⟨i, hi⟩).name = some "iPod" →
        (∀ j (hj : j < i), (pls.get ⟨j, Nat.lt_trans hj hi⟩).name ≠ some "iPod") →
        find_master_playlist pls = pls.get ⟨i, hi⟩) ∧
    (∀ (a : RawPlaylist) (rest : List RawPlaylist),
        (∀ q ∈ a :: rest, q.ptype ≠ some "master") →
        (∀ q ∈ a :: rest, q.name ≠ some "iPod") →
        find_master_playlist (a :: rest) = a) ∧
    find_master_playlist [] = { name := none, ptype := none, tracks := [] } ∧
    (∀ pls s, library_summary pls = some s →
        ∃ norm, normalize_tracks (find_master_playlist pls).tracks = some norm ∧
          s.tracks = norm ∧
          s.track_count = norm.length ∧
          s.artist_count = ((norm.filterMap fun t =>
            if t.artist ≠ "" then some t.artist else none).dedup).length ∧
          s.album_count = ((norm.filterMap fun t =>
            if t.album ≠ "" then some t.album else none).dedup).length ∧
          s.total_duration_seconds
            = round2 (norm.foldl (fun acc t => acc + t.duration_seconds) 0)) := by
  refine ⟨?_, ?_, ?_, rfl, ?_⟩
  · intro pls i hi hp hbefore
    rw [find_master_playlist,
      find?_first _ pls i hi (by simpa using hp)
        (fun j hj => by simpa using hbefore j hj)]
  · intro pls i hi hnomaster hp hbefore
    have h1 : pls.find? (fun p => p.ptype == some "master") = none := by
      rw [List.find?_eq_none]
      intro q hq
      simp [hnomaster q hq]
    rw [find_master_playlist, h1,
      find?_first _ pls i hi (by simpa using hp)
        (fun j hj => by simpa using hbefore j hj)]
  · intro a rest hnomaster hnoipod
    have h1 : (a :: rest).find? (fun p => p.ptype == some "master") = none := by
      rw [List.find?_eq_none]
      intro q hq
      simp [hnomaster q hq]
    have h2 : (a :: rest).find? (fun p => p.name == some "iPod") = none := by
      rw [List.find?_eq_none]
      intro q hq
      simp [hnoipod q hq]
    rw [find_master_playlist, h1, h2]
    rfl
  · intro pls s h
    rw [library_summary] at h
    cases hn : normalize_tracks (find_master_playlist pls).tracks with
    | none => rw [hn] at h; simp at h
    | some norm =>
      rw [hn] at h
      injection h with h
      subst h
      exact ⟨norm, rfl, rfl, rfl, rfl, rfl, rfl⟩

/-- C6 (witness): the theorem applied concretely — in a two-playlist list
whose second entry is the master-typed one, that entry is selected. -/
theorem C6_master_playlist_witness :
    find_master_playlist
        [{ name := some "Mix", ptype := some "playlist", tracks := [] },
         { name := some "iPod", ptype := some "master", tracks := [] }]
      = { name := some "iPod", ptype := some "master", tracks := [] } :=
  C6_master_playlist.1
    [{ name := some "Mix", ptype := some "playlist", tracks := [] },
     { name := some "iPod", ptype := some "master", tracks := [] }]
    1 Nat.one_lt_two rfl
    (by
      intro j hj
      have hj0 : j = 0 := by omega
      subst hj0
      intro hcontra
      simp at hcontra)

/-- `text.find(ch)`: first index of a character, if any. -/
def findIdx (c : Char) : Str → Option Nat
  | [] => none
  | x :: xs => if x = c then some 0 else (findIdx c xs).map (· + 1)

/-- `text.rfind(ch)`: last index of a character, if any. -/
def rfindIdx (c : Char) (s : Str) : Option Nat :=
  (findIdx c s.reverse).map fun i => s.length - 1 - i

/-- Embedding of `_extract_json_blob`; `none` models the raised
`GpodError` ("No JSON object found in gpod-ls output."). -/
def extract_json_blob (text : Str) : Option Str :=
  match findIdx '{' text, rfindIdx '}' text with
  | some start, some stop =>
    if stop < start then none
    else some ((text.drop start).take (stop + 1 - start))
  | _, _ => none

/-- The two parse-error families of `parse_gpod_output`. -/
inductive ParseErr where
  | noJson
  | badJson
deriving DecidableEq

/-- Embedding of `parse_gpod_output`, with `json.loads` as a decoder
oracle (the JSON library is external; only which blob is handed to it and
whether it parses matter). -/
def parse_gpod_output {J : Type} (decode : Str → Option J) (stdout : Str) :
    Except ParseErr J :=
  match extract_json_blob stdout with
  | none => .error .noJson
  | some blob =>
    match decode blob with
    | some v => .ok v
    | none => .error .badJson

lemma findIdx_some {c : Char} {s : Str} :
    ∀ {i : Nat}, findIdx c s = some i →
    ∃ hi : i < s.length, s.get ⟨i, hi⟩ = c ∧
      ∀ j (hj : j < i), s.get ⟨j, Nat.lt_trans hj hi⟩ ≠ c := by
  induction s with
  | nil => intro i h; simp [findIdx] at h
  | cons x xs ih =>
    intro i h
    rw [findIdx] at h
    by_cases hx : x = c
    · rw [if_pos hx] at h
      injection h with h
      subst h
      exact ⟨Nat.succ_pos _, hx, fun j hj => absurd hj (Nat.not_lt_zero j)⟩
    · rw [if_neg hx] at h
      cases hf : findIdx c xs with
      | none => rw [hf] at h; simp at h
      | some n =>
        rw [hf] at h
        simp only [Option.map_some'] at h
        injection h with h
        subst h
        obtain ⟨hn, hc, hbefore⟩ := ih hf
        refine ⟨Nat.succ_lt_succ hn, hc, ?_⟩
        intro j hj
        cases j with
        | zero => simpa using hx
        | succ m => exact hbefore m (Nat.lt_of_succ_lt_succ hj)

lemma findIdx_none {c : Char} {s : Str} : findIdx c s = none ↔ ∀ x ∈ s, x ≠ c := by
  induction s with
  | nil => simp [findIdx]
  | cons x xs ih =>
    rw [findIdx]
    by_cases hx : x = c
    · simp [hx]
    · simp [hx, Option.map_eq_none', ih]

lemma rfindIdx_some {c : Char} {s : Str} {k : Nat} (h : rfindIdx c s = some k) :
    ∃ hk : k < s.length, s.get ⟨k, hk⟩ = c ∧
      ∀ j (hj : j < s.length), k < j → s.get ⟨j, hj⟩ ≠ c := by
  rw [rfindIdx] at h
  cases hf : findIdx c s.reverse with
  | none => rw [hf] at h; simp at h
  | some i =>
    rw [hf] at h
    simp only [Option.map_some'] at h
    injection h with h
    obtain ⟨hi, hc, hbefore⟩ := findIdx_some hf
    have hilen : i < s.length := by simpa using hi
    have hk : k < s.length := by omega
    have hrev : ∀ (m : Nat) (hm : m < s.reverse.length),
        s.reverse.get ⟨m, hm⟩ = s.get ⟨s.length - 1 - m, by
          have := (List.length_reverse s) ▸ hm
          omega⟩ := by
      intro m hm
      simp [List.getElem_reverse]
    refine ⟨hk, ?_, ?_⟩
    · have hgi := hrev i hi
      rw [hgi] at hc
      have hke : s.length - 1 - i = k := h
      simp only [hke] at hc
      exact hc
    · intro j hj hkj
      have hj' : s.length - 1 - j < i := by omega
      have hb := hbefore (s.length - 1 - j) hj'
      have hgj := hrev (s.length - 1 - j) (Nat.lt_trans hj' hi)
      rw [hgj] at hb
      have hjj : s.length - 1 - (s.length - 1 - j) = j := by omega
      simp only [hjj] at hb
      exact hb

/-- C8: output parsing extracts exactly the substring from the first `{`
to the last `}` inclusive and hands it to the JSON decoder; when no `{` or
no `}` exists, or the last `}` precedes the first `{`, or the decoder
rejects the blob, a hard parse error is raised. -/
theorem C8_parse_gpod_output :
    (∀ (c : Char) (s : Str) (i : Nat), findIdx c s = some i →
      ∃ hi : i < s.length, s.get ⟨i, hi⟩ = c ∧
        ∀ j (hj : j < i), s.get ⟨j, Nat.lt_trans hj hi⟩ ≠ c) ∧
    (∀ (c : Char) (s : Str) (k : Nat), rfindIdx c s = some k →
      ∃ hk : k < s.length, s.get ⟨k, hk⟩ = c ∧
        ∀ j (hj : j < s.length), k < j → s.get ⟨j, hj⟩ ≠ c) ∧
    (∀ text i k, findIdx '{' text = some i → rfindIdx '}' text = some k → i ≤ k →
      extract_json_blob text = some ((text.drop i).take (k + 1 - i))) ∧
    (∀ text, extract_json_blob text = none ↔
      (findIdx '{' text = none ∨ rfindIdx '}' text = none ∨
        ∃ i k, findIdx '{' text = some i ∧ rfindIdx '}' text = some k ∧ k < i)) ∧
    (∀ (J : Type) (decode : Str → Option J) (text : Str),
      (∀ v, parse_gpod_output decode text = .ok v ↔
        ∃ blob, extract_json_blob text = some blob ∧ decode blob = some v) ∧
      (parse_gpod_output decode text = .error .noJson ↔
        extract_json_blob text = none) ∧
      (parse_gpod_output decode text = .error .badJson ↔
        ∃ blob, extract_json_blob text = some blob ∧ decode blob = none)) := by
  refine ⟨fun c s i h => findIdx_some h, fun c s k h => rfindIdx_some h, ?_, ?_, ?_⟩
  · intro text i k hfind hrfind hik
    have hext : extract_json_blob text
        = if k < i then none else some ((text.drop i).take (k + 1 - i)) := by
      rw [extract_json_blob, hfind, hrfind]
    rw [hext, if_neg (by omega)]
  · intro text
    rw [extract_json_blob]
    cases hfind : findIdx '{' text with
    | none => simp
    | some i =>
      cases hrfind : rfindIdx '}' text with
      | none => simp
      | some k =>
        by_cases hik : k < i
        · simp [hik]
        · simp [hik]
  · intro J decode text
    cases hext : extract_json_blob text with
    | none =>
      have hp : parse_gpod_output decode text = .error .noJson := by
        rw [parse_gpod_output, hext]
      refine ⟨?_, ?_, ?_⟩
      · intro v
        rw [hp]
        simp
      · rw [hp]
        simp
      · rw [hp]
        simp
    | some blob =>
      cases hdec : decode blob with
      | none =>
        have hp : parse_gpod_output decode text = .error .badJson := by
          have h1 : parse_gpod_output decode text
              = match decode blob with
                | some v => Except.ok v
                | none => .error .badJson := by
            rw [parse_gpod_output, hext]
          rw [h1, hdec]
        refine ⟨?_, ?_, ?_⟩
        · intro v
          rw [hp]
          constructor
          · intro h
            exact absurd h (by simp)
          · rintro ⟨b, hb, hbv⟩
            injection hb with hb
            subst hb
            rw [hdec] at hbv
            exact absurd hbv (by simp)
        · rw [hp]
          constructor
          · intro h
            simp at h
          · intro h
            simp at h
        · rw [hp]
          exact ⟨fun _ => ⟨blob, rfl, hdec⟩, fun _ => rfl⟩
      | some w =>
        have hp : parse_gpod_output decode text = .ok w := by
          have h1 : parse_gpod_output decode text
              = match decode blob with
                | some v => Except.ok v
                | none => .error .badJson := by
            rw [parse_gpod_output, hext]
          rw [h1, hdec]
        refine ⟨?_, ?_, ?_⟩
        · intro v
          rw [hp]
          constructor
          · intro h
            injection h with h
            exact ⟨blob, rfl, by rw [hdec, h]⟩
          · rintro ⟨b, hb, hbv⟩
            injection hb with hb
            subst hb
            rw [hdec] at hbv
            injection hbv with hbv
            rw [hbv]
        · rw [hp]
          constructor
          · intro h
            exact absurd h (by simp)
          · intro h
            simp at h
        · rw [hp]
          constructor
          · intro h
            exact absurd h (by simp)
          · rintro ⟨b, hb, hbv⟩
            injection hb with hb
            subst hb
            rw [hdec] at hbv
            exact absurd hbv (by simp)

/-- C8 (witness): the theorem applied concretely — noisy output around a
brace-delimited payload is cut at the first `{` and the last `}`. -/
theorem C8_parse_gpod_output_witness :
    extract_json_blob ("noise ".toList ++ '{' :: "pay".toList ++ '}' :: " tail".toList)
      = some ((("noise ".toList ++ '{' :: "pay".toList ++ '}' :: " tail".toList).drop 6).take
          (10 + 1 - 6)) :=
  C8_parse_gpod_output.2.2.1 _ 6 10 (by decide) (by decide) (by omega)

/-- The lock-file path of `_itunesdb_write_lock`: a deterministic function
of the truncated digest of the absolute mountpoint (`hashlib.sha1` is an
external primitive, abstracted as the `digest` oracle). -/
def lock_path (tmpDir : Str) (digest : Str → Str) (cwd mountpoint : Str) : Str :=
  pyJoin tmpDir ("classicpod_itunesdb_".toList
    ++ digest (pyAbspath cwd mountpoint) ++ ".lock".toList)

/-- One contender's state in the polling acquire loop of
`_itunesdb_write_lock`: polling with a budget of remaining retries before
its deadline, holding the lock, released, or failed with the lock-timeout
`GpodError`. -/
inductive TState where
  | acquiring (budget : Nat)
  | holding
  | released
  | timedOut
deriving DecidableEq

/-- The shared state of two contending operations on the same lock file:
the OS `flock` bit and each contender's loop state. -/
structure LockSys where
  locked : Bool
  ts0 : TState
  ts1 : TState
deriving DecidableEq

/-- The loop state of contender `i`. -/
def tstateOf (s : LockSys) (i : Bool) : TState :=
  if i then s.ts1 else s.ts0

/-- Replace contender `i`'s state and the lock bit. -/
def setTs (s : LockSys) (i : Bool) (t : TState) (lk : Bool) : LockSys :=
  if i then { locked := lk, ts0 := s.ts0, ts1 := t }
  else { locked := lk, ts0 := t, ts1 := s.ts1 }

/-- One scheduler step of contender `i`.  `flock(LOCK_EX | LOCK_NB)` is an
atomic test-and-set per its contract; on contention the contender either
fails with the lock timeout (deadline reached, budget exhausted) or sleeps
0.1s and retries; from `holding` the contender eventually runs `LOCK_UN`
in the `finally` block and is done. -/
def lockStep (s : LockSys) (i : Bool) : LockSys :=
  match tstateOf s i with
  | .acquiring b =>
    if s.locked = false then setTs s i .holding true
    else if b = 0 then setTs s i .timedOut s.locked
    else setTs s i (.acquiring (b - 1)) s.locked
  | .holding => setTs s i .released false
  | .released => s
  | .timedOut => s

/-- Run a scheduler trace. -/
def lockRun (s : LockSys) : List Bool → LockSys
  | [] => s
  | i :: tr => lockRun (lockStep s i) tr

/-- Both contenders start polling with the lock free. -/
def lockInit (b0 b1 : Nat) : LockSys :=
  { locked := false, ts0 := .acquiring b0, ts1 := .acquiring b1 }

/-- The mutual-exclusion invariant: never two holders, and any holder
implies the `flock` bit is set. -/
def LockInv (s : LockSys) : Prop :=
  ¬ (s.ts0 = .holding ∧ s.ts1 = .holding) ∧
  ((s.ts0 = .holding ∨ s.ts1 = .holding) → s.locked = true)

lemma lockStep_inv {s : LockSys} (i : Bool) (h : LockInv s) : LockInv (lockStep s i) := by
  obtain ⟨h1, h2⟩ := h
  rw [lockStep]
  cases i with
  | false =>
    cases ht : tstateOf s false with
    | acquiring b =>
      rw [tstateOf, if_neg (by simp)] at ht
      show LockInv (if s.locked = false then setTs s false TState.holding true
        else if b = 0 then setTs s false TState.timedOut s.locked
        else setTs s false (TState.acquiring (b - 1)) s.locked)
      by_cases hl : s.locked = false
      · rw [if_pos hl]
        constructor
        · rintro ⟨_, hb1⟩
          simp only [setTs, if_neg (by simp : ¬ (false : Bool) = true)] at hb1
          exact absurd (h2 (Or.inr hb1)) (by simp [hl])
        · intro _
          simp [setTs]
      · rw [if_neg hl]
        by_cases hb : b = 0
        · rw [if_pos hb]
          constructor
          · rintro ⟨hb0, _⟩
            simp [setTs] at hb0
          · rintro (hb0 | hb1)
            · simp [setTs] at hb0
            · simp only [setTs, if_neg (by simp : ¬ (false : Bool) = true)] at hb1 ⊢
              exact h2 (Or.inr hb1)
        · rw [if_neg hb]
          constructor
          · rintro ⟨hb0, _⟩
            simp [setTs] at hb0
          · rintro (hb0 | hb1)
            · simp [setTs] at hb0
            · simp only [setTs, if_neg (by simp : ¬ (false : Bool) = true)] at hb1 ⊢
              exact h2 (Or.inr hb1)
    | holding =>
      rw [tstateOf, if_neg (by simp)] at ht
      constructor
      · rintro ⟨hb0, _⟩
        simp [setTs] at hb0
      · rintro (hb0 | hb1)
        · simp [setTs] at hb0
        · simp only [setTs, if_neg (by simp : ¬ (false : Bool) = true)] at hb1
          exact absurd ⟨ht, hb1⟩ h1
    | released => exact ⟨h1, h2⟩
    | timedOut => exact ⟨h1, h2⟩
  | true =>
    cases ht : tstateOf s true with
    | acquiring b =>
      rw [tstateOf, if_pos rfl] at ht
      show LockInv (if s.locked = false then setTs s true TState.holding true
        else if b = 0 then setTs s true TState.timedOut s.locked
        else setTs s true (TState.acquiring (b - 1)) s.locked)
      by_cases hl : s.locked = false
      · rw [if_pos hl]
        constructor
        · rintro ⟨hb0, _⟩
          simp only [setTs, if_pos rfl] at hb0
          exact absurd (h2 (Or.inl hb0)) (by simp [hl])
        · intro _
          simp [setTs]
      · rw [if_neg hl]
        by_cases hb : b = 0
        · rw [if_pos hb]
          constructor
          · rintro ⟨_, hb1⟩
            simp [setTs] at hb1
          · rintro (hb0 | hb1)
            · simp only [setTs, if_pos rfl] at hb0 ⊢
              exact h2 (Or.inl hb0)
            · simp [setTs] at hb1
        · rw [if_neg hb]
          constructor
          · rintro ⟨_, hb1⟩
            simp [setTs] at hb1
          · rintro (hb0 | hb1)
            · simp only [setTs, if_pos rfl] at hb0 ⊢
              exact h2 (Or.inl hb0)
            · simp [setTs] at hb1
    | holding =>
      rw [tstateOf, if_pos rfl] at ht
      constructor
      · rintro ⟨_, hb1⟩
        simp [setTs] at hb1
      · rintro (hb0 | hb1)
        · simp only [setTs, if_pos rfl] at hb0
          exact absurd ⟨hb0, ht⟩ h1
        · simp [setTs] at hb1
    | released => exact ⟨h1, h2⟩
    | timedOut => exact ⟨h1, h2⟩

lemma lockRun_inv {s : LockSys} (tr : List Bool) (h : LockInv s) :
    LockInv (lockRun s tr) := by
  induction tr generalizing s with
  | nil => exact h
  | cons i tr ih => exact ih (lockStep_inv i h)

lemma tstateOf_setTs (s : LockSys) (i : Bool) (t : TState) (lk : Bool) :
    tstateOf (setTs s i t lk) i = t := by
  cases i <;> simp [setTs, tstateOf]

lemma locked_setTs (s : LockSys) (i : Bool) (t : TState) (lk : Bool) :
    (setTs s i t lk).locked = lk := by
  cases i <;> simp [setTs]

/-- C9: two operations targeting the same normalized device path can never
both hold the write lock (mutual exclusion under every interleaving from
the initial state); a contender polling against a held lock never acquires
in that step, and if the lock stays held it fails with the lock-timeout
error once its budget of polls is exhausted; once the holder releases, the
waiting contender's next poll acquires; and the lock identity is a
function of the absolute path, so two spellings of the same device path
map to the same lock file. -/
theorem C9_write_lock :
    (∀ (b0 b1 : Nat) (tr : List Bool),
      ¬ ((lockRun (lockInit b0 b1) tr).ts0 = TState.holding ∧
         (lockRun (lockInit b0 b1) tr).ts1 = TState.holding)) ∧
    (∀ (s : LockSys) (i : Bool) (b : Nat), tstateOf s i = TState.acquiring b →
      s.locked = true → tstateOf (lockStep s i) i ≠ TState.holding) ∧
    (∀ (b : Nat) (s : LockSys) (i : Bool), tstateOf s i = TState.acquiring b →
      s.locked = true →
      tstateOf (lockRun s (List.replicate (b + 1) i)) i = TState.timedOut) ∧
    (∀ (s : LockSys) (b : Nat), s.ts0 = TState.holding → s.ts1 = TState.acquiring b →
      (lockRun s [false, true]).ts1 = TState.holding) ∧
    (∀ (tmpDir : Str) (digest : Str → Str) (cwd p q : Str),
      pyAbspath cwd p = pyAbspath cwd q →
      lock_path tmpDir digest cwd p = lock_path tmpDir digest cwd q) := by
  refine ⟨?_, ?_, ?_, ?_, ?_⟩
  · intro b0 b1 tr
    have hinit : LockInv (lockInit b0 b1) := by
      constructor
      · rintro ⟨h, _⟩
        simp [lockInit] at h
      · rintro (h | h) <;> simp [lockInit] at h
    exact (lockRun_inv tr hinit).1
  · intro s i b ht hl
    rw [lockStep, ht]
    show tstateOf (if s.locked = false then setTs s i TState.holding true
      else if b = 0 then setTs s i TState.timedOut s.locked
      else setTs s i (TState.acquiring (b - 1)) s.locked) i ≠ TState.holding
    rw [if_neg (by simp [hl])]
    by_cases hb : b = 0
    · rw [if_pos hb, tstateOf_setTs]
      simp
    · rw [if_neg hb, tstateOf_setTs]
      simp
  · intro b
    induction b with
    | zero =>
      intro s i ht hl
      show tstateOf (lockRun (lockStep s i) []) i = TState.timedOut
      show tstateOf (lockStep s i) i = TState.timedOut
      rw [lockStep, ht]
      show tstateOf (if s.locked = false then setTs s i TState.holding true
        else if 0 = 0 then setTs s i TState.timedOut s.locked
        else setTs s i (TState.acquiring (0 - 1)) s.locked) i = TState.timedOut
      rw [if_neg (by simp [hl]), if_pos rfl, tstateOf_setTs]
    | succ n ih =>
      intro s i ht hl
      show tstateOf (lockRun (lockStep s i) (List.replicate (n + 1) i)) i
        = TState.timedOut
      have hstep : lockStep s i = setTs s i (TState.acquiring n) s.locked := by
        rw [lockStep, ht]
        show (if s.locked = false then setTs s i TState.holding true
          else if n + 1 = 0 then setTs s i TState.timedOut s.locked
          else setTs s i (TState.acquiring (n + 1 - 1)) s.locked)
          = setTs s i (TState.acquiring n) s.locked
        rw [if_neg (by simp [hl]), if_neg (by omega)]
        simp
      rw [hstep]
      exact ih _ i (tstateOf_setTs _ _ _ _) (by rw [locked_setTs]; exact hl)
  · intro s b h0 h1
    have ht0 : tstateOf s false = TState.holding := by
      rw [tstateOf, if_neg (by simp)]
      exact h0
    have hstep : lockStep s false = setTs s false TState.released false := by
      rw [lockStep, ht0]
    show (lockRun (lockStep s false) [true]).ts1 = TState.holding
    rw [hstep]
    show (lockStep (setTs s false TState.released false) true).ts1 = TState.holding
    have ht1 : tstateOf (setTs s false TState.released false) true
        = TState.acquiring b := by
      simp [setTs, tstateOf, h1]
    rw [lockStep, ht1]
    show (if (setTs s false TState.released false).locked = false
      then setTs (setTs s false TState.released false) true TState.holding true
      else if b = 0
        then setTs (setTs s false TState.released false) true TState.timedOut
          (setTs s false TState.released false).locked
        else setTs (setTs s false TState.released false) true
          (TState.acquiring (b - 1)) (setTs s false TState.released false).locked).ts1
      = TState.holding
    rw [if_pos (by simp [setTs])]
    simp [setTs]
  · intro tmpDir digest cwd p q hpq
    rw [lock_path, lock_path, hpq]

/-- C9 (witness): the theorem applied concretely — two spellings of the
same mountpoint produce the same lock-file path. -/
theorem C9_write_lock_witness :
    lock_path "/tmp".toList (fun s => s) "/".toList "/mnt/ipod".toList
      = lock_path "/tmp".toList (fun s => s) "/".toList "/mnt//ipod/.".toList :=
  C9_write_lock.2.2.2.2 "/tmp".toList (fun s => s) "/".toList
    "/mnt/ipod".toList "/mnt//ipod/.".toList (by decide)
